import Mathlib

/-!
# CyberBackup / CyberRestore: a shallow embedding

The development models the backup and restore engine of the repository
(`src/lib/CyberBase.cpp`, `src/lib/CyberBackup.cpp`, `src/lib/CyberRestore.cpp`,
`src/include/CyberBase.hpp`) over an explicit model of the file system and of
the parts of the C++ standard library the engine calls (`std::filesystem` and
the file streams, with the behaviour of libstdc++ on Linux).

Modelling conventions

* A path is the list of its components below the root (`/a/b` is `["a", "b"]`).
  The command-line paths are taken absolute, so `fs::absolute` is the identity
  and `fs::canonical` only resolves symbolic links. A component that is empty
  stands for a doubled or trailing separator.
* The file system is an association list from canonical paths to nodes; the
  order of the list is the order in which directory iterators enumerate.
  A node is a regular file (modification time, content), a directory
  (modification time) or a symbolic link (target text). The characters of a
  content stand for its bytes. Owners and permission bits are not modelled;
  the one call that depends on them, `chown`, fails as the environment says.
* Time stamps are natural numbers; `Env.now` is the clock of the running
  process. Creating or removing an entry gives its directory the time `now`.
* `std::exit` and an exception that escapes a `noexcept` function are explicit
  results (`Run.exit`, `Run.crash`). A library call that can throw returns an
  `Option`, `none` standing for the exception, unless the caller catches it;
  the status queries (`fs::exists`, `fs::is_directory`, `fs::is_symlink`) throw
  when the path cannot be resolved for another reason than a missing entry.
* Console output is not modelled.

The file has three parts: the model of the program, the notions and concrete
inputs that the properties are stated with, and the properties.
-/

namespace nt

/-! ## Paths and characters -/

abbrev Path := List String

/-- Rendering of an absolute path as `fs::path::string()` gives it. -/
def pathString (p : Path) : String :=
  match p with
  | [] => "/"
  | _ => String.join (p.map (fun c => "/" ++ c))

/-- The C locale `isspace` used by formatted stream extraction. -/
def isspace (c : Char) : Bool :=
  c = ' ' || c = Char.ofNat 9 || c = Char.ofNat 10 || c = Char.ofNat 11 ||
    c = Char.ofNat 12 || c = Char.ofNat 13

/-- Order of `fs::path` values: lexicographic on the components, each compared
character by character. -/
def pathLe (a b : Path) : Prop := a.map String.toList ≤ b.map String.toList

instance : DecidableRel pathLe :=
  fun a b => inferInstanceAs (Decidable (a.map String.toList ≤ b.map String.toList))

instance : IsTotal Path pathLe := ⟨fun _ _ => le_total _ _⟩

instance : IsTrans Path pathLe := ⟨fun _ _ _ => le_trans⟩

/-! ## Constants of `CyberBase` -/

namespace CyberBase

def DIR_NAME : String := "data"

def SUM_NAME : String := "type.nt"

/-- One position of the compiled time stamp pattern. -/
inductive PatItem where
  | digit
  | lit (c : Char)
  deriving DecidableEq, Repr

/-- The regular expression `\d{4}-\d{2}-\d{2}_\d{2}-\d{2}-\d{2}`. -/
def timestamp_pattern : List PatItem :=
  [.digit, .digit, .digit, .digit, .lit '-', .digit, .digit, .lit '-', .digit, .digit,
   .lit '_', .digit, .digit, .lit '-', .digit, .digit, .lit '-', .digit, .digit]

def PatItem.accepts : PatItem → Char → Bool
  | .digit, c => c.isDigit
  | .lit d, c => c = d

/-- Whole-string match, as `std::regex_match` on a pattern without repetition
operators other than fixed counts. -/
def regexMatchChars : List Char → List PatItem → Bool
  | [], [] => true
  | c :: cs, p :: ps => p.accepts c && regexMatchChars cs ps
  | _, _ => false

def regex_match (s : String) (pat : List PatItem) : Bool := regexMatchChars s.toList pat

end CyberBase

/-! ## Error numbers -/

def EPERM : Nat := 1

def ENOENT : Nat := 2

def EIO : Nat := 5

def ENXIO : Nat := 6

def EAGAIN : Nat := 11

def EACCES : Nat := 13

def EFAULT : Nat := 14

def EBUSY : Nat := 16

def EEXIST : Nat := 17

def EXDEV : Nat := 18

def ENOTDIR : Nat := 20

def EISDIR : Nat := 21

def EINVAL : Nat := 22

def ENOTTY : Nat := 25

def EFBIG : Nat := 27

def ENOSPC : Nat := 28

def EROFS : Nat := 30

def ENAMETOOLONG : Nat := 36

def ENOSYS : Nat := 38

def ENOTEMPTY : Nat := 39

def ELOOP : Nat := 40

def EUSERS : Nat := 87

/-! ## The file system -/

inductive Node where
  | file (mtime : Nat) (content : String)
  | dir (mtime : Nat)
  | symlink (target : String)
  deriving DecidableEq, Repr

abbrev FS := List (Path × Node)

/-- Split the text of a link target at the separators. -/
def splitSlash : List Char → List Char → List String
  | acc, [] => [String.mk acc.reverse]
  | acc, c :: cs =>
    if c = '/' then String.mk acc.reverse :: splitSlash [] cs else splitSlash (c :: acc) cs

def isAbsoluteTarget (t : String) : Bool :=
  match t.toList with
  | c :: _ => c = '/'
  | [] => false

/-- The node stored at a canonical path; the root is always a directory. -/
def nodeAt (fs : FS) (p : Path) : Option Node :=
  if p = [] then some (.dir 0) else fs.lookup p

/-- Walk the components `comps` starting in the canonical directory `cur`; a
symbolic link met on the way is handed to `onLink` together with the
components that remain. A failure carries the error number. -/
def walkPath (fs : FS) (onLink : Path → List String → Except Nat Path) :
    Path → List String → Except Nat Path
  | cur, [] => .ok cur
  | cur, c :: rest =>
    if c = "" ∨ c = "." then walkPath fs onLink cur rest
    else if c = ".." then walkPath fs onLink cur.dropLast rest
    else
      match nodeAt fs (cur ++ [c]) with
      | none => .error ENOENT
      | some (.dir _) => walkPath fs onLink (cur ++ [c]) rest
      | some (.file _ _) => if rest = [] then .ok (cur ++ [c]) else .error ENOTDIR
      | some (.symlink t) =>
        onLink (if isAbsoluteTarget t then [] else cur) (splitSlash [] t.toList ++ rest)

/-- Path resolution following symbolic links; the first argument bounds the
number of links followed, beyond which the resolution fails with `ELOOP`. -/
def resolve (fs : FS) : Nat → Path → List String → Except Nat Path
  | 0 => fun _ _ => .error ELOOP
  | n + 1 => walkPath fs (resolve fs n)

/-- Resolution of an existing path, `fs::canonical`; `none` stands for the
exception thrown when the path does not resolve. -/
def canonical (fs : FS) (p : Path) : Option Path :=
  match resolve fs 41 [] p with
  | .ok q => some q
  | .error _ => none

/-- The outcome of `stat(2)`: canonical path and node, links followed, or the
error number. -/
def stat (fs : FS) (p : Path) : Except Nat (Path × Node) :=
  match resolve fs 41 [] p with
  | .error e => .error e
  | .ok q =>
    match nodeAt fs q with
    | none => .error ENOENT
    | some n => .ok (q, n)

/-- The outcome of `lstat(2)`: the last component is not followed, unless it is
empty (a trailing separator), `.` or `..`. -/
def lstat (fs : FS) (p : Path) : Except Nat (Path × Node) :=
  match p.getLast? with
  | none => .ok ([], .dir 0)
  | some c =>
    if c = "" ∨ c = "." ∨ c = ".." then stat fs p
    else
      match stat fs p.dropLast with
      | .ok (d, .dir _) =>
        match nodeAt fs (d ++ [c]) with
        | none => .error ENOENT
        | some n => .ok (d ++ [c], n)
      | .ok _ => .error ENOTDIR
      | .error e => .error e

/-- The errors after which `fs::status` and `fs::symlink_status` report "not
found"; after any other error they throw. -/
def notFound (e : Nat) : Bool := e = ENOENT || e = ENOTDIR

/-- The call `fs::exists(p)`; `none` stands for the exception thrown when the
status cannot be read (a link loop on the way). -/
def fs_exists (fs : FS) (p : Path) : Option Bool :=
  match stat fs p with
  | .ok _ => some true
  | .error e => if notFound e then some false else none

/-- The call `fs::is_directory(p)`, also `directory_entry::is_directory()`;
links are followed; `none` stands for the exception. -/
def is_directory (fs : FS) (p : Path) : Option Bool :=
  match stat fs p with
  | .ok (_, .dir _) => some true
  | .ok _ => some false
  | .error e => if notFound e then some false else none

/-- The call `fs::is_symlink(p)`; the last component is not followed; `none`
stands for the exception. -/
def is_symlink (fs : FS) (p : Path) : Option Bool :=
  match lstat fs p with
  | .ok (_, .symlink _) => some true
  | .ok _ => some false
  | .error e => if notFound e then some false else none

def Node.mtime : Node → Nat
  | .file m _ => m
  | .dir m => m
  | .symlink _ => 0

/-- Modification time, `fs::last_write_time`; `none` stands for the exception
thrown on a path that does not resolve. -/
def last_write_time (fs : FS) (p : Path) : Option Nat :=
  match stat fs p with
  | .ok r => some r.2.mtime
  | .error _ => none

/-- Size in bytes, `fs::file_size`; `none` stands for the exception thrown on a
missing path or a directory. -/
def file_size (fs : FS) (p : Path) : Option Nat :=
  match stat fs p with
  | .ok (_, .file _ c) => some c.length
  | _ => none

/-- Target text of a link, `fs::read_symlink`; `none` stands for the exception
thrown when the path is not a link. -/
def read_symlink (fs : FS) (p : Path) : Option String :=
  match lstat fs p with
  | .ok (_, .symlink t) => some t
  | _ => none

/-- Entries yielded by `fs::directory_iterator(p)`, in enumeration order; `none`
stands for the exception thrown when `p` is not a directory. -/
def directory_iterator (fs : FS) (p : Path) : Option (List Path) :=
  match stat fs p with
  | .ok (d, .dir _) =>
    some (fs.filterMap (fun e =>
      match e.1.getLast? with
      | some c => if e.1.dropLast = d then some (p ++ [c]) else none
      | none => none))
  | _ => none

/-! ## Input file streams -/

structure IfStream where
  is_open : Bool
  buf : List Char
  failbit : Bool
  eofbit : Bool
  deriving DecidableEq, Repr

/-- Construction of `std::ifstream` on a path: opening a directory succeeds but
nothing can be read from it. -/
def IfStream.open (fs : FS) (p : Path) : IfStream :=
  match stat fs p with
  | .ok (_, .file _ c) => ⟨true, c.data, false, false⟩
  | .ok (_, .dir _) => ⟨true, [], false, false⟩
  | _ => ⟨false, [], true, false⟩

/-- Formatted extraction `stream >> str`: the target string is left alone when
the sentry fails, otherwise it receives the next blank-delimited token. -/
def IfStream.extract (s : IfStream) (str : String) : IfStream × String :=
  if s.failbit || s.eofbit then ({ s with failbit := true }, str)
  else
    match (if s.is_open then s.buf else []).dropWhile isspace with
    | [] => ({ s with buf := [], failbit := true, eofbit := true }, str)
    | c :: cs =>
      let tok := (c :: cs).takeWhile (fun x => !isspace x)
      let rest := (c :: cs).dropWhile (fun x => !isspace x)
      ({ s with buf := rest, eofbit := rest.isEmpty }, String.mk tok)

/-- Closing releases the file and its buffer; the state flags stay. -/
def IfStream.close (s : IfStream) : IfStream :=
  { s with is_open := false, buf := [], failbit := s.failbit || !s.is_open }

/-! ## Results of a run -/

/-- Result of a piece of the program: a value, `std::exit` with a code (and the
file system it leaves), or `std::terminate` after an uncaught exception. -/
inductive Run (α : Type) where
  | ok (a : α)
  | exit (code : Nat) (fs : FS)
  | crash
  deriving DecidableEq, Repr

def Run.bind {α β : Type} (r : Run α) (f : α → Run β) : Run β :=
  match r with
  | .ok a => f a
  | .exit code fs => .exit code fs
  | .crash => .crash

instance : Monad Run where
  pure := Run.ok
  bind := Run.bind

/-- What the process cannot decide: its clock, which `chown` calls the
operating system refuses (by destination, with the error number), and the
system text of an error number. -/
structure Env where
  now : Nat
  chown_errno : Path → Option Nat
  strerror : Nat → String

/-- A `fs::filesystem_error`: error code and the two paths it carries. -/
structure FsError where
  code : Nat
  path1 : String
  path2 : String
  deriving DecidableEq, Repr

/-! ## File system mutation -/

def setNode (fs : FS) (p : Path) (n : Node) : FS :=
  fs.map (fun e => if e.1 = p then (p, n) else e)

/-- A directory whose set of entries changes gets the current time. -/
def touch (env : Env) (fs : FS) (d : Path) : FS :=
  match nodeAt fs d with
  | some (.dir _) => setNode fs d (.dir env.now)
  | _ => fs

def addNode (env : Env) (fs : FS) (p : Path) (n : Node) : FS :=
  touch env (fs ++ [(p, n)]) p.dropLast

/-- Creation of a new entry (`mkdir`, `symlink`, `open` with `O_CREAT|O_EXCL`):
the parent must resolve to a directory and the name must be free. -/
def writeNew (env : Env) (fs : FS) (p : Path) (n : Node) : Except Nat FS :=
  match p.getLast? with
  | none => .error EEXIST
  | some c =>
    match stat fs p.dropLast with
    | .ok (d, .dir _) =>
      match nodeAt fs (d ++ [c]) with
      | none => .ok (addNode env fs (d ++ [c]) n)
      | some _ => .error EEXIST
    | .ok _ => .error ENOTDIR
    | .error e => .error e

/-- The components of `fs::create_directories`, from the root downwards: an
existing directory is passed, anything else in the way is an error, a missing
component is created. -/
def createDirsFrom (env : Env) : FS → Path → List String → Except Nat FS
  | fs, _, [] => .ok fs
  | fs, cur, c :: rest =>
    match stat fs (cur ++ [c]) with
    | .ok (_, .dir _) => createDirsFrom env fs (cur ++ [c]) rest
    | .ok _ => .error ENOTDIR
    | .error e =>
      if notFound e then
        match writeNew env fs (cur ++ [c]) (.dir env.now) with
        | .ok fs1 => createDirsFrom env fs1 (cur ++ [c]) rest
        | .error e1 => .error e1
      else .error e

def create_directories (env : Env) (fs : FS) (p : Path) : Except FsError FS :=
  match createDirsFrom env fs [] p with
  | .ok fs1 => .ok fs1
  | .error e => .error ⟨e, pathString p, ""⟩

/-- The helper `do_copy_file` without overwrite options. -/
def do_copy_file (env : Env) (fs : FS) (content : String) (dst : Path) : Except Nat FS :=
  match stat fs dst with
  | .ok (_, .file _ _) => .error EEXIST
  | .ok _ => .error EINVAL
  | .error e => if notFound e then writeNew env fs dst (.file env.now content) else .error e

/-- The call `fs::copy(from, to, fs::copy_options::copy_symlinks)`: the source is
examined without following a final link, the target with following; a target
that is the source itself is refused; a directory is not copied. -/
def copyCode (env : Env) (fs : FS) (src dst : Path) : Except Nat FS :=
  match lstat fs src with
  | .error e => .error e
  | .ok (sp, node) =>
    match stat fs dst with
    | .error e =>
      if notFound e then
        match node with
        | .symlink t => writeNew env fs dst (.symlink t)
        | .file _ c => do_copy_file env fs c dst
        | .dir _ => .ok fs
      else .error e
    | .ok (dp, tnode) =>
      if dp = sp then .error EEXIST
      else
        match node, tnode with
        | .symlink _, _ => .error EINVAL
        | .file _ c, .dir _ =>
          match src.getLast? with
          | some name => do_copy_file env fs c (dst ++ [name])
          | none => .error EINVAL
        | .file _ c, _ => do_copy_file env fs c dst
        | .dir _, .file _ _ => .error EISDIR
        | .dir _, _ => .ok fs

def copy (env : Env) (fs : FS) (src dst : Path) : Except FsError FS :=
  match copyCode env fs src dst with
  | .ok fs1 => .ok fs1
  | .error e => .error ⟨e, pathString src, pathString dst⟩

/-- The call `fs::remove_all(p)`: the entry and everything below it; a path
that does not exist is no error, any other failure to reach it is. -/
def remove_all (env : Env) (fs : FS) (p : Path) : Except FsError FS :=
  match lstat fs p with
  | .error e => if e = ENOENT then .ok fs else .error ⟨e, pathString p, ""⟩
  | .ok (q, _) =>
    if q = [] then .ok fs
    else .ok (touch env (fs.filter (fun e => !(q.isPrefixOf e.1))) q.dropLast)

/-- The call `fs::remove_all(p)` inside `try { } catch (const
fs::filesystem_error&) { }`. -/
def remove_all_quiet (env : Env) (fs : FS) (p : Path) : FS :=
  match remove_all env fs p with
  | .ok fs1 => fs1
  | .error _ => fs

/-- Opening a file for writing with `O_CREAT`, links followed: an existing
file is truncated, a missing one is created, also through a link whose target
is missing; `none` when it cannot be opened. The first argument bounds the
links followed. -/
def openForWriting (env : Env) (fs : FS) : Nat → Path → Option FS
  | 0, _ => none
  | n + 1, p =>
    match stat fs p with
    | .ok (q, .file _ _) => some (setNode fs q (.file env.now ""))
    | .ok _ => none
    | .error e =>
      if notFound e then
        match lstat fs p with
        | .ok (q, .symlink t) =>
          openForWriting env fs n
            ((if isAbsoluteTarget t then [] else q.dropLast) ++ splitSlash [] t.toList)
        | .ok _ => none
        | .error _ =>
          match writeNew env fs p (.file env.now "") with
          | .ok fs1 => some fs1
          | .error _ => none
      else none

/-- Opening a `std::ofstream` for writing: the file is created or truncated;
`none` when it cannot be opened. -/
def ofstream_open (env : Env) (fs : FS) (p : Path) : Option FS := openForWriting env fs 41 p

/-- Closing a `std::ofstream`: what was written reaches the file. -/
def ofstream_close (env : Env) (fs : FS) (p : Path) (content : String) : FS :=
  match stat fs p with
  | .ok (q, .file _ _) => setNode fs q (.file env.now content)
  | _ => fs

/-- Set the modification time as `utimensat` does. -/
def set_mtime (fs : FS) (p : Path) (t : Nat) : FS :=
  match stat fs p with
  | .ok (q, .file _ c) => setNode fs q (.file t c)
  | .ok (q, .dir _) => setNode fs q (.dir t)
  | _ => fs

/-! ## Directory walks -/

/-- Canonical paths of the entries of the canonical directory `d`. -/
def childrenOf (fs : FS) (d : Path) : List Path :=
  (fs.filter (fun e => e.1 ≠ [] ∧ e.1.dropLast = d)).map Prod.fst

/-- Pre-order walk below a canonical directory; links are not followed. -/
def walkTree (fs : FS) : Nat → Path → List Path
  | 0, _ => []
  | n + 1, d =>
    (childrenOf fs d).flatMap (fun c =>
      c :: (match nodeAt fs c with
        | some (.dir _) => walkTree fs n c
        | _ => []))

/-- Entries yielded by `fs::recursive_directory_iterator(root)`; `none` stands
for the exception thrown when `root` is not a directory. -/
def recursive_directory_iterator (fs : FS) (root : Path) : Option (List Path) :=
  match stat fs root with
  | .ok (d, .dir _) => some ((walkTree fs fs.length d).map (fun e => root ++ e.drop d.length))
  | _ => none

/-! ## `CyberBase` -/

/-- The call `s.substr(pos, s.size())`; `none` stands for the exception
`std::out_of_range` thrown when `pos` is beyond the end. -/
def substr (s : String) (pos : Nat) : Option String :=
  if pos ≤ s.length then some (String.mk (s.data.drop pos)) else none

/-- The path `p / t` for a text `t`: an absolute text replaces `p`. -/
def appendText (p : Path) (t : String) : Path :=
  if isAbsoluteTarget t then splitSlash [] t.toList else p ++ splitSlash [] t.toList

namespace CyberBase

/-- A result that needs a value an exception would replace. -/
def orCrash {α : Type} : Option α → Run α
  | some a => .ok a
  | none => .crash

/-- The enumeration `Parameter`. -/
def CREATE_DESTINATION : Nat := 1

def IGNORE_ERRORS : Nat := 2

def SHOW_ERROR_STAT : Nat := 4

def SHOW_BACKUP_STAT : Nat := 8

def SILENT : Nat := 16

def PROCESS : Nat := 32

def REMOVE_BASE : Nat := 64

def REMOVE_INSIDE_ONLY : Nat := 128

def OVERRIDE_DESTINATION : Nat := 256

def getParam (value : Nat) (param : Nat) : Bool := (value &&& param) != 0

/-- The fold `(value & ... & (value ^ args))`. -/
def nullifyParams (value : Nat) (args : List Nat) : Nat :=
  args.foldl (fun acc a => acc &&& (value ^^^ a)) value

/-- The fold `(value | ... | args)`. -/
def enableParams (value : Nat) (args : List Nat) : Nat :=
  args.foldl (fun acc a => acc ||| a) value

/-- The second component of an outcome pair: a path, or a text stored in the
`fs::path` (an error message, the word `DELETE`). -/
inductive Target where
  | path (p : Path)
  | text (s : String)
  deriving DecidableEq, Repr

abbrev Outcome := Path × Target

/-- The function `CyberBase::abort`; `base` is `none` for the empty string.
Console output is not modelled. -/
def abort (env : Env) (fs : FS) (code : Nat) (params : Nat) (base : Option Path) : Run Unit :=
  if !getParam params IGNORE_ERRORS then
    let fs1 :=
      if getParam params REMOVE_BASE then
        match base with
        | some b => remove_all_quiet env fs b
        | none => fs
      else fs
    if getParam params REMOVE_INSIDE_ONLY then
      match base.bind (directory_iterator fs1) with
      | none => .crash
      | some entries => .exit code (entries.foldl (remove_all_quiet env) fs1)
    else .exit code fs1
  else .ok ()

/-- The text chosen by the `switch` of `CyberBase::processFSError`. -/
def fsErrorText (env : Env) (val : Nat) (path1 path2 : String) : String :=
  if val = EACCES then
    "Cannot access '" ++ path1 ++ "' or '" ++ path2 ++
      "'. Try to check permissions or launch my_backup as root."
  else if val = ENOENT then
    "Cannot find entry '" ++ path1 ++ "' or '" ++ path2 ++ "'. Try to check the path."
  else if val = EEXIST then "Entry '" ++ path2 ++ "' already exists."
  else if val = ENOTDIR then
    "Entry '" ++ path1 ++
      "' is not a directory. Check if you selected correct entry or check the path."
  else if val = EISDIR then
    "Entry '" ++ path1 ++
      "' is a directory. Ensure that you've selected correct entry or check the path."
  else if val = ENOTEMPTY then
    "Directory '" ++ path1 ++
      "' is not empty. Try to remove files from this path or select other directory."
  else if val = ENOSPC then
    "Not enough free space on the hard drive to complete the operation. Try to remove unnecessary files."
  else if val = ELOOP then
    "Too long symbolic link level detected. Ensure that you don't have recursive dependencies on links."
  else if val = EROFS then "File system is in read-only mode. Check permissions."
  else if val = EBUSY then
    "File system is busy. Try to wait or close unnecessary processes which use the system."
  else if val = EXDEV then
    "Attempt to create symlink between different file systems. Check if both drives has the same system."
  else if val = EPERM then
    "Operation is not permitted. Try to check permissions to file or directory."
  else if val = ENAMETOOLONG then
    "Filename '" ++ path1 ++ "' is too long. Try to rename file or directory."
  else if val = EFBIG then
    "File '" ++ path1 ++ "' or '" ++ path2 ++
      "' is too large. Try to process backup operation with different file."
  else if val = EAGAIN then "Resource is temporary unavailable. Try again later."
  else if val = EINVAL then "Broken backup. Try to use other or recreate backup."
  else env.strerror val

/-- The function `CyberBase::processFSError`. -/
def processFSError (env : Env) (fs : FS) (error : FsError) (params : Nat)
    (base : Option Path) : Run String :=
  let what := fsErrorText env error.code error.path1 error.path2
  (abort env fs error.code params base).bind (fun _ => .ok what)

/-- The text chosen by the `switch` of `CyberBase::processErrnoError`. -/
def errnoText (env : Env) (errno : Nat) (path1 path2 : String) : String :=
  if errno = EPERM ∨ errno = EACCES then
    "Cannot access '" ++ path1 ++ "' or '" ++ path2 ++
      "'. Try to check permissions or launch my_backup as root."
  else if errno = ENOENT ∨ errno = EFAULT ∨ errno = ENXIO then
    "Cannot find entry '" ++ path1 ++ "' or '" ++ path2 ++ "'. Try to check the path."
  else if errno = EIO then "Filesystem error. Check your drive."
  else if errno = ELOOP then
    "Too long symbolic link level detected. Ensure that you don't have recursive dependencies on links."
  else if errno = ENOSYS then "Operation is not supported by a system. Change your OS."
  else if errno = ENOTTY then "Operation is not supported. Check your device."
  else if errno = EBUSY ∨ errno = EUSERS then
    "File system is busy. Try to wait or close unnecessary processes which use the system."
  else if errno = ENAMETOOLONG then
    "Filename '" ++ path1 ++ "' or '" ++ path2 ++
      "' is too long. Try to rename file or directory."
  else if errno = ENOSPC then
    "Not enough free space on the hard drive to complete the operation. Try to remove unnecessary files."
  else if errno = EROFS then "File system is in read-only mode. Check permissions."
  else env.strerror errno

/-- The function `CyberBase::processErrnoError`, with the value of `errno`. -/
def processErrnoError (env : Env) (fs : FS) (errno : Nat) (path1 path2 : String)
    (params : Nat) (base : Option Path) : Run String :=
  let what := errnoText env errno path1 path2
  (abort env fs errno params base).bind (fun _ => .ok what)

/-- One of the three calls of `setStat` (`chown`, `chmod`, `utimensat`): when it
fails with `errno`, the classified message and two blanks are appended. -/
def statCall (env : Env) (fs : FS) (failure : Option Nat) (src dst : Path) (params : Nat)
    (base : Option Path) (success : String) : Run String :=
  match failure with
  | some errno =>
    (processErrnoError env fs errno (pathString src) (pathString dst) params base).bind
      (fun what => .ok (success ++ what ++ "  "))
  | none => .ok success

/-- The function `CyberBase::setStat`: owner, mode and times of `src` are put on
`dst`. The model keeps no owner or mode: `chown` fails as the environment says,
and each call fails with the error number of the resolution when `dst` does
not resolve. -/
def setStat (env : Env) (params : Nat) (fs : FS) (src dst : Path) (base : Option Path) :
    Run (FS × String) :=
  match stat fs src with
  | .error _ => .ok (fs, "")
  | .ok (_, node) =>
    let missing : Option Nat :=
      match stat fs dst with
      | .ok _ => none
      | .error e => some e
    let chown : Option Nat :=
      match stat fs dst with
      | .ok _ => env.chown_errno dst
      | .error e => some e
    (statCall env fs chown src dst params base "").bind (fun s1 =>
      (statCall env fs missing src dst params base s1).bind (fun s2 =>
        (statCall env fs missing src dst params base s2).bind (fun s3 =>
          .ok (set_mtime fs dst node.mtime, s3))))

/-- The two outcome lists of a run together with the file system. -/
structure St where
  fs : FS
  success : List Outcome
  errors : List Outcome
  deriving DecidableEq, Repr

/-- The template `CyberBase::executeCopy`; `func` is the bound call
(`fs::create_directories(target_path)` or `fs::copy(entry, target_path,
copy_symlinks)`). -/
def executeCopy (env : Env) (params : Nat) (func : FS → Except FsError FS) (st : St)
    (entry target_path : Path) (dst : Option Path) (modified : Bool) : Run St :=
  if !modified then .ok st
  else
    match func st.fs with
    | .ok fs1 => .ok { st with fs := fs1, success := st.success ++ [(entry, .path target_path)] }
    | .error error =>
      (processFSError env st.fs error params dst).bind
        (fun what => .ok { st with errors := st.errors ++ [(entry, .text what)] })

/-- A text held in an `fs::path`, read as a path. -/
def Target.toPath : Target → Path
  | .path p => p
  | .text s => splitSlash [] s.toList

/-- The loop that calls `setStat` on every outcome whose source is not a link
(backup lines 224-233, restore lines 212-221), from index `ind` on: the new
file system, the outcomes with failed destinations replaced by the message,
and the indices of the failures. -/
def preserveFrom (env : Env) (params : Nat) (base : Option Path) :
    FS → List Outcome → Nat → Run (FS × List Outcome × List Nat)
  | fs, [], _ => .ok (fs, [], [])
  | fs, (src, tgt) :: rest, ind =>
    (orCrash (is_symlink fs src)).bind (fun link =>
      if !link then
        (setStat env params fs src tgt.toPath base).bind (fun r =>
          (preserveFrom env params base r.1 rest (ind + 1)).bind (fun t =>
            if r.2 ≠ "" then .ok (t.1, (src, .text r.2) :: t.2.1, ind :: t.2.2)
            else .ok (t.1, (src, tgt) :: t.2.1, t.2.2)))
      else
        (preserveFrom env params base fs rest (ind + 1)).bind (fun t =>
          .ok (t.1, (src, tgt) :: t.2.1, t.2.2)))

/-- The inner `while (pos < success.size() && pos < ind)` loop. -/
def copyUpTo (success : List Outcome) (ind : Nat) : Nat → Nat → List Outcome → Nat × List Outcome
  | 0, pos, success_new => (pos, success_new)
  | fuel + 1, pos, success_new =>
    if pos < success.length ∧ pos < ind then
      match success[pos]? with
      | some x => copyUpTo success ind fuel (pos + 1) (success_new ++ [x])
      | none => (pos, success_new)
    else (pos, success_new)

/-- The loop over `err_stat` (backup lines 237-242, restore lines 225-230);
`none` stands for an access past the end of `success`. -/
def moveFailed (success : List Outcome) :
    List Nat → Nat → List Outcome → List Outcome → Option (Nat × List Outcome × List Outcome)
  | [], pos, success_new, errors => some (pos, success_new, errors)
  | ind :: rest, pos, success_new, errors =>
    let r := copyUpTo success ind success.length pos success_new
    match success[r.1]? with
    | some x => moveFailed success rest (r.1 + 1) r.2 (errors ++ [x])
    | none => none

/-- The second pass of both programs: metadata of the transferred entries, then
the failures are moved from the success list to the error list. -/
def preserveMetadata (env : Env) (params : Nat) (base : Option Path) (st : St) : Run St :=
  (preserveFrom env params base st.fs st.success 0).bind (fun r =>
    match moveFailed r.2.1 r.2.2 0 [] st.errors with
    | some m => .ok ⟨r.1, m.2.1 ++ r.2.1.drop m.1, m.2.2⟩
    | none => .crash)

/-- The loop that builds the list from the entries of a walk, entered with the
list so far: an entry that `fs::is_directory` accepts is pushed to the front,
every other entry to the back; `none` when `fs::is_directory` throws. -/
def buildFrom (fs : FS) : List Path → List Path → Option (List Path)
  | list, [] => some list
  | list, entry :: rest =>
    match is_directory fs entry with
    | none => none
    | some true => buildFrom fs (entry :: list) rest
    | some false => buildFrom fs (list ++ [entry]) rest

/-- The list built from a recursive walk (backup lines 189-196, restore lines
162-176). -/
def buildList (fs : FS) (entries : List Path) : Option (List Path) := buildFrom fs [] entries

/-- Stream output of an `fs::path`: the text between double quotes, with a
backslash before every double quote and backslash. -/
def quoted (s : String) : String :=
  String.mk ([Char.ofNat 34] ++
    s.toList.flatMap (fun c =>
      if c = Char.ofNat 34 ∨ c = Char.ofNat 92 then [Char.ofNat 92, c] else [c]) ++
    [Char.ofNat 34])

end CyberBase

/-! ## `CyberBackup::findLastFull` -/

namespace CyberBackup

open CyberBase

/-- The loop of lines 93-100: directories under the destination whose name
matches the pattern; `none` when `entry.is_directory()` throws. -/
def collectBackupDirs (fs : FS) : List Path → Option (List Path)
  | [] => some []
  | e :: rest =>
    match is_directory fs e with
    | none => none
    | some d =>
      match collectBackupDirs fs rest with
      | none => none
      | some dirs =>
        if d && (match e.getLast? with
            | some dir_name => regex_match dir_name timestamp_pattern
            | none => false) then some (e :: dirs)
        else some dirs

/-- The condition of lines 110-111 on the opened summary, entered with the
current `ret.second`: whether the candidate is taken, and the new `ret.second`. -/
def readKind (sum_file : IfStream) (ret2 : String) : Bool × String :=
  if !sum_file.is_open then (false, ret2)
  else
    let r1 := sum_file.extract ""
    if r1.1.failbit then (false, ret2)
    else if r1.2 ≠ "full" then (false, ret2)
    else
      let r2 := r1.1.extract ret2
      if r2.1.failbit then (false, r2.2)
      else if !regex_match r2.2 timestamp_pattern then (false, r2.2)
      else (true, r2.2)

/-- The body of the loop of lines 105-118 for one candidate: whether the
candidate is taken (`break`) or passed over (no summary, or `continue`), and
the new `ret.second`; `none` when `fs::exists` throws. -/
def examine (fs : FS) (backup_dir : Path) (ret2 : String) : Option (Bool × String) :=
  match fs_exists fs (backup_dir ++ [SUM_NAME]) with
  | none => none
  | some true => some (readKind (IfStream.open fs (backup_dir ++ [SUM_NAME])) ret2)
  | some false => some (false, ret2)

/-- The scan of lines 104-118 over the candidates in iteration order. -/
def scan (fs : FS) : List Path → Option Path × String → Option (Option Path × String)
  | [], ret => some ret
  | backup_dir :: rest, ret =>
    match examine fs backup_dir ret.2 with
    | none => none
    | some (true, s) => some (some backup_dir, s)
    | some (false, s) => scan fs rest (ret.1, s)

/-- The function `CyberBackup::findLastFull`; the empty `fs::path` of a
default-constructed pair is `none`. -/
def findLastFull (env : Env) (fs : FS) (destination : Path) : Run (Option Path × String) :=
  (orCrash (directory_iterator fs destination)).bind (fun entries =>
  (orCrash (collectBackupDirs fs entries)).bind (fun dirs =>
  let backup_dirs := List.insertionSort pathLe dirs
  (orCrash (scan fs backup_dirs.reverse (none, ""))).bind (fun ret =>
  if ret.2 = "" then (abort env fs ENOENT 0 none).bind (fun _ => .ok ret) else .ok ret)))

/-- Inequality of two values either of which may be an exception. -/
def differ {α : Type} [DecidableEq α] : Option α → Option α → Option Bool
  | some a, some b => some (decide (a ≠ b))
  | _, _ => none

/-- Line 207: the verdict for an entry that `fs::is_directory` accepts; `none`
when a call throws. -/
def modifiedDirectory (fs : FS) (entry full_backup_path : Path) : Option Bool :=
  match is_directory fs full_backup_path with
  | none => none
  | some false => some true
  | some true => differ (last_write_time fs entry) (last_write_time fs full_backup_path)

/-- Line 212: the verdict for an entry that `fs::is_symlink` accepts. -/
def modifiedSymlink (fs : FS) (entry full_backup_path : Path) : Option Bool :=
  match is_symlink fs full_backup_path with
  | none => none
  | some false => some true
  | some true => differ (read_symlink fs entry) (read_symlink fs full_backup_path)

/-- Lines 217-218: the verdict for every other entry. -/
def modifiedFile (fs : FS) (entry full_backup_path : Path) : Option Bool :=
  match fs_exists fs full_backup_path with
  | none => none
  | some false => some true
  | some true =>
    match differ (last_write_time fs entry) (last_write_time fs full_backup_path) with
    | none => none
    | some true => some true
    | some false => differ (file_size fs entry) (file_size fs full_backup_path)

/-- The body of the transfer loop, lines 199-222. The relative path is the text
of the entry from the position `source_norm.string().size() + 1` on. -/
def transferStep (env : Env) (params : Nat) (source_norm destination_norm full_backup_norm : Path)
    (dst : Path) (st : St) (entry : Path) : Run St :=
  (orCrash (substr (pathString entry) ((pathString source_norm).length + 1))).bind
    (fun relative_path =>
  let target_path := appendText (destination_norm ++ [DIR_NAME]) relative_path
  let full_backup_path := appendText (full_backup_norm ++ [DIR_NAME]) relative_path
  (orCrash (is_directory st.fs entry)).bind (fun directory =>
  if directory then
    (orCrash (modifiedDirectory st.fs entry full_backup_path)).bind (fun modified =>
      executeCopy env params (fun fs => create_directories env fs target_path) st entry
        target_path (some dst) modified)
  else
    (orCrash (is_symlink st.fs entry)).bind (fun link =>
    if link then
      (orCrash (modifiedSymlink st.fs entry full_backup_path)).bind (fun modified =>
        executeCopy env params (fun fs => copy env fs entry target_path) st entry
          target_path (some dst) modified)
    else
      (orCrash (modifiedFile st.fs entry full_backup_path)).bind (fun modified =>
        executeCopy env params (fun fs => copy env fs entry target_path) st entry
          target_path (some dst) modified))))

/-- The transfer loop over the list. -/
def transferLoop (env : Env) (params : Nat) (source_norm destination_norm full_backup_norm : Path)
    (dst : Path) : St → List Path → Run St
  | st, [] => .ok st
  | st, entry :: rest =>
    (transferStep env params source_norm destination_norm full_backup_norm dst st entry).bind
      (fun st1 => transferLoop env params source_norm destination_norm full_backup_norm dst st1 rest)

/-- The body of the deletion scan, lines 256-263: the success list and the text
written to the summary stream so far; `none` when a call throws. -/
def deletionStep (fs : FS) (source_norm full_data : Path) (acc : List Outcome × String)
    (entry : Path) : Option (List Outcome × String) :=
  match substr (pathString entry) ((pathString full_data).length + 1) with
  | none => none
  | some relative_path =>
    let target_path := appendText source_norm relative_path
    match is_symlink fs target_path with
    | none => none
    | some true => some acc
    | some false =>
      match fs_exists fs target_path with
      | none => none
      | some true => some acc
      | some false =>
        some (acc.1 ++ [(target_path, .text "DELETE")],
          acc.2 ++ quoted (pathString entry) ++ "\n")

/-- The deletion scan over the entries of the walk, lines 255-264. -/
def deletionScan (fs : FS) (source_norm full_data : Path) :
    List Outcome × String → List Path → Option (List Outcome × String)
  | acc, [] => some acc
  | acc, entry :: rest =>
    match deletionStep fs source_norm full_data acc entry with
    | none => none
    | some acc1 => deletionScan fs source_norm full_data acc1 rest

/-- Lines 147-176: the destination is checked and the new backup directory is
created. -/
def prepareDestination (env : Env) (params : Nat) (destination : Path) (timestamp : String)
    (fs : FS) : Run FS :=
  (orCrash (is_directory fs destination)).bind (fun present =>
  if !present then
    if !getParam params CREATE_DESTINATION then
      (abort env fs ENOENT (nullifyParams params [IGNORE_ERRORS, REMOVE_BASE]) none).bind
        (fun _ => .ok fs)
    else
      match create_directories env fs (destination ++ [timestamp, DIR_NAME]) with
      | .ok fs1 => .ok fs1
      | .error error =>
        (processFSError env fs error (nullifyParams params [IGNORE_ERRORS])
          (some (destination ++ [timestamp]))).bind (fun _ => .ok fs)
  else
    (orCrash (is_directory fs destination)).bind (fun directory =>
    (if !directory then
      abort env fs ENOTDIR (nullifyParams params [IGNORE_ERRORS, REMOVE_BASE]) (some destination)
    else .ok ()).bind (fun _ =>
    (orCrash (is_directory fs (destination ++ [timestamp]))).bind (fun taken =>
      if taken then
        (abort env fs ENOTEMPTY (nullifyParams params [IGNORE_ERRORS, REMOVE_BASE]) none).bind
          (fun _ => .ok fs)
      else
        match create_directories env fs (destination ++ [timestamp, DIR_NAME]) with
        | .ok fs1 => .ok fs1
        | .error error =>
          (processFSError env fs error (nullifyParams params [IGNORE_ERRORS])
            (some (destination ++ [timestamp]))).bind (fun _ => .ok fs)))))

/-- Lines 137-145: the reference backup and its time stamp. -/
def selectReference (env : Env) (type : String) (destination : Path) (timestamp : String)
    (fs : FS) : Run (Path × String) :=
  if type = "incremental" then
    (findLastFull env fs destination).bind (fun ret =>
      (orCrash (ret.1.bind (canonical fs))).bind (fun full_backup_norm =>
        .ok (full_backup_norm, ret.2)))
  else .ok (destination ++ [timestamp], timestamp)

/-- Lines 246-267: the summary file is written, with the deletion scan of an
incremental backup. -/
def writeSummary (env : Env) (type : String) (params : Nat) (source_norm destination_norm
    full_backup_norm : Path) (full_backup_timestamp : String) (st : St) : Run St :=
  (match ofstream_open env st.fs (destination_norm ++ [SUM_NAME]) with
    | some fs1 => Run.ok fs1
    | none =>
      (abort env st.fs ENOENT (nullifyParams params [IGNORE_ERRORS]) none).bind
        (fun _ => .ok st.fs)).bind (fun fs1 =>
    let header := type ++ " " ++ full_backup_timestamp ++ "\n\n"
    (if type = "incremental" then
      (orCrash (recursive_directory_iterator fs1 (full_backup_norm ++ [DIR_NAME]))).bind
        (fun entries =>
          orCrash (deletionScan fs1 source_norm (full_backup_norm ++ [DIR_NAME])
            (st.success, header) entries))
    else Run.ok (st.success, header)).bind (fun r =>
      .ok ⟨ofstream_close env fs1 (destination_norm ++ [SUM_NAME]) r.2, r.1, st.errors⟩))

/-- The function `CyberBackup::process`; `timestamp` is the value of `getTime()`.
Console output is not modelled. -/
def process (env : Env) (type : String) (source destination : Path) (params : Nat)
    (timestamp : String) (fs : FS) : Run St :=
  (orCrash (is_directory fs source)).bind (fun present =>
  (if !present then
    abort env fs ENOENT (nullifyParams params [IGNORE_ERRORS, REMOVE_BASE]) none
  else .ok ()).bind (fun _ =>
  (selectReference env type destination timestamp fs).bind (fun ref =>
  (prepareDestination env params destination timestamp fs).bind (fun fs1 =>
  (orCrash (canonical fs1 source)).bind (fun source_norm =>
  (orCrash (canonical fs1 destination)).bind (fun dest_canon =>
  let destination_norm := dest_canon ++ [timestamp]
  (orCrash (recursive_directory_iterator fs1 source_norm)).bind (fun entries =>
  (orCrash (buildList fs1 entries)).bind (fun list =>
  (transferLoop env params source_norm destination_norm ref.1 (destination ++ [timestamp])
    ⟨fs1, [], []⟩ list).bind (fun st =>
  (preserveMetadata env params (some (destination ++ [timestamp])) st).bind (fun st1 =>
  writeSummary env type params source_norm destination_norm ref.1 ref.2 st1))))))))))

end CyberBackup

/-! ## `CyberRestore::process` -/

namespace CyberRestore

open CyberBase

/-- The range of `std::istream_iterator<std::string>` over a stream: tokens are
extracted until an extraction fails. -/
def readAll : Nat → IfStream → List String
  | 0, _ => []
  | n + 1, s =>
    let r := s.extract ""
    if r.1.failbit then [] else r.2 :: readAll n r.1

/-- Lines 85-115: the referenced time stamp is read from the summary, the full
backup is located, and the set `to_remove` is built from the stream. -/
def readSummary (env : Env) (params : Nat) (source : Path) (fs : FS) :
    Run (Path × List String) :=
  let fatal_params := nullifyParams params [IGNORE_ERRORS, REMOVE_INSIDE_ONLY]
  let sum_file := IfStream.open fs (source ++ [SUM_NAME])
  (if !sum_file.is_open then abort env fs ENOENT fatal_params none else .ok ()).bind (fun _ =>
  let r1 := sum_file.extract ""
  (if r1.1.failbit then abort env fs EINVAL fatal_params none else .ok ()).bind (fun _ =>
  let r2 := r1.1.extract r1.2
  (if r2.1.failbit && !regex_match r2.2 timestamp_pattern then abort env fs EINVAL fatal_params none
    else .ok ()).bind (fun _ =>
  let closed := r2.1.close
  let full_backup_norm := appendText source.dropLast r2.2
  (orCrash (is_directory fs (full_backup_norm ++ [DIR_NAME]))).bind (fun present =>
  (if !present then abort env fs ENOENT fatal_params none else .ok ()).bind (fun _ =>
  (orCrash (canonical fs full_backup_norm)).bind (fun full_canon =>
  .ok (full_canon, readAll (closed.buf.length + 1) closed)))))))

/-- The body of the loop of lines 137-148 over the entries of the destination. -/
def clearStep (env : Env) (params : Nat) (destination : Path) (fs1 : FS) (entry : Path) :
    Run FS :=
  if getParam params OVERRIDE_DESTINATION then
    match remove_all env fs1 entry with
    | .ok fs2 => .ok fs2
    | .error error =>
      (processFSError env fs1 error (nullifyParams params [IGNORE_ERRORS, REMOVE_INSIDE_ONLY])
        (some destination)).bind (fun _ => .ok fs1)
  else
    (abort env fs1 ENOTEMPTY (nullifyParams params [IGNORE_ERRORS, REMOVE_INSIDE_ONLY])
      none).bind (fun _ => .ok fs1)

/-- Lines 117-149: the destination is created, or checked and cleared. -/
def prepareDestination (env : Env) (params : Nat) (destination : Path) (fs : FS) : Run FS :=
  (orCrash (is_directory fs destination)).bind (fun present =>
  if !present then
    if !getParam params CREATE_DESTINATION then
      (abort env fs ENOENT (nullifyParams params [IGNORE_ERRORS, REMOVE_INSIDE_ONLY]) none).bind
        (fun _ => .ok fs)
    else
      match create_directories env fs destination with
      | .ok fs1 => .ok fs1
      | .error error =>
        (processFSError env fs error (nullifyParams params [IGNORE_ERRORS])
          (some destination)).bind (fun _ => .ok fs)
  else
    (orCrash (is_directory fs destination)).bind (fun directory =>
    (if !directory then
      abort env fs ENOTDIR (nullifyParams params [IGNORE_ERRORS, REMOVE_INSIDE_ONLY]) none
    else .ok ()).bind (fun _ =>
      (orCrash (directory_iterator fs destination)).bind (fun entries =>
        entries.foldlM (clearStep env params destination) fs))))

/-- The body of the first merge pass, lines 179-197. The relative path is the
text of the entry from the position `full_backup_norm.string().size() +
std::strlen(DIR_NAME) + 2` on. -/
def mergeStep (env : Env) (params : Nat) (destination source_norm destination_norm
    full_backup_norm : Path) (to_remove : List String) (st : St) (entry : Path) : Run St :=
  (orCrash (substr (pathString entry)
    ((pathString full_backup_norm).length + DIR_NAME.length + 2))).bind (fun relative_path =>
  let target_path := appendText destination_norm relative_path
  let source_path := appendText (source_norm ++ [DIR_NAME]) relative_path
  let full_backup_path := appendText (full_backup_norm ++ [DIR_NAME]) relative_path
  (orCrash (is_symlink st.fs source_path)).bind (fun link =>
  if link then .ok st
  else
    (orCrash (fs_exists st.fs source_path)).bind (fun present =>
    if present || to_remove.contains (pathString full_backup_path) then .ok st
    else
      (orCrash (is_directory st.fs entry)).bind (fun directory =>
      if directory then
        executeCopy env params (fun fs => create_directories env fs target_path) st entry
          target_path (some destination) true
      else
        executeCopy env params (fun fs => copy env fs entry target_path) st entry target_path
          (some destination) true))))

/-- The body of the second merge pass, lines 199-210. -/
def overlayStep (env : Env) (params : Nat) (destination source_norm destination_norm : Path)
    (st : St) (entry : Path) : Run St :=
  (orCrash (substr (pathString entry)
    ((pathString source_norm).length + DIR_NAME.length + 2))).bind (fun relative_path =>
  let target_path := appendText destination_norm relative_path
  (orCrash (is_directory st.fs entry)).bind (fun directory =>
  if directory then
    executeCopy env params (fun fs => create_directories env fs target_path) st entry target_path
      (some destination) true
  else
    executeCopy env params (fun fs => copy env fs entry target_path) st entry target_path
      (some destination) true))

/-- A loop over a list of entries with a body that may end the run. -/
def runLoop (body : St → Path → Run St) : St → List Path → Run St
  | st, [] => .ok st
  | st, entry :: rest => (body st entry).bind (fun st1 => runLoop body st1 rest)

/-- The function `CyberRestore::process`. Console output is not modelled. -/
def process (env : Env) (source destination : Path) (params : Nat) (fs : FS) : Run St :=
  (orCrash (is_directory fs (source ++ [DIR_NAME]))).bind (fun present =>
  (if !present then
    abort env fs ENOENT (nullifyParams params [IGNORE_ERRORS, REMOVE_INSIDE_ONLY]) none
  else .ok ()).bind (fun _ =>
  (readSummary env params source fs).bind (fun summary =>
  (prepareDestination env params destination fs).bind (fun fs1 =>
  (orCrash (canonical fs1 source)).bind (fun source_norm =>
  (orCrash (canonical fs1 destination)).bind (fun destination_norm =>
  (orCrash (recursive_directory_iterator fs1 (source_norm ++ [DIR_NAME]))).bind (fun walk_source =>
  (orCrash (buildList fs1 walk_source)).bind (fun list_source =>
  (orCrash (recursive_directory_iterator fs1 (summary.1 ++ [DIR_NAME]))).bind (fun walk_full =>
  (orCrash (buildList fs1 walk_full)).bind (fun list_full_backup =>
  (runLoop (mergeStep env params destination source_norm destination_norm summary.1 summary.2)
    ⟨fs1, [], []⟩ list_full_backup).bind (fun st =>
  (runLoop (overlayStep env params destination source_norm destination_norm) st
    list_source).bind (fun st1 =>
  preserveMetadata env params (some destination) st1))))))))))))

end CyberRestore

/-! ## The constructors -/

/-- Result of a constructor: the object is built, or the process has ended in
`std::exit` with what it wrote to `std::cout` and `std::cerr`, or in
`std::terminate`. -/
inductive Startup (α : Type) where
  | ready (a : α)
  | exit (code : Nat) (out err : String)
  | crash
  deriving DecidableEq, Repr

/-- The data members of `CyberBase`; the paths are kept as given. -/
structure Members where
  type : String
  source : String
  destination : String
  params : Nat
  deriving DecidableEq, Repr

/-- The call `abort(code, msg)` of the constructors, with the default `params`
(0) and `base`: the message goes to `std::cerr` and the process exits. -/
def startupAbort {α : Type} (code : Nat) (msg : String) : Startup α :=
  .exit code "" (msg ++ "\n")

namespace CyberBackup

open CyberBase

/-- The usage text of lines 23-34 and the `std::endl` of line 35. -/
def usage : String :=
  "Usage: my_backup [TYPE] [SOURCE] [DESTINATION] [OPTIONAL FLAGS]\n" ++
  "A tool for creating a backup of your files and folders from SOURCE to DESTINATION in timestamp name folder.\n" ++
  "\nTwo backup types are available: full and incremental.\n" ++
  "  full             creates a full backup copy of the SOURCE\n" ++
  "  incremental      creates a copy of the SOURCE with differences between current state and last full backup\n" ++
  "\nOptions\n" ++
  "  create       Create a backup folder if it does not exist\n" ++
  "  full_info    Display a backup information after process\n" ++
  "  error_info   Display info only about errors\n" ++
  "  silent       Silent mode (do not show errors)\n" ++
  "  process      Show progress status\n" ++
  "  ignore       Continue backing up despite errors\n" ++
  "\n"

/-- The loop of lines 62-79 over the optional operands. -/
def readFlags : List String → Nat → Startup Nat
  | [], params => .ready params
  | arg :: rest, params =>
    if arg = "create" then readFlags rest (enableParams params [CREATE_DESTINATION])
    else if arg = "ignore" then readFlags rest (enableParams params [IGNORE_ERRORS])
    else if arg = "full_info" then
      readFlags rest (enableParams params [SHOW_ERROR_STAT, SHOW_BACKUP_STAT])
    else if arg = "error_info" then readFlags rest (enableParams params [SHOW_ERROR_STAT])
    else if arg = "silent" then readFlags rest (enableParams params [SILENT])
    else if arg = "process" then readFlags rest (enableParams params [PROCESS])
    else
      startupAbort EINVAL
        "Wrong operand. Did you mean 'create', 'full_info', 'error_info', 'silent', 'process' or 'ignore'?"

set_option linter.dupNamespace false in
/-- The constructor `CyberBackup::CyberBackup(argc, argv)`; `argv` holds the
program name and the operands, `argc` is its length. -/
def CyberBackup (argv : List String) : Startup Members :=
  let argc := argv.length
  if argc = 1 then
    startupAbort EINVAL "Missing a backup type. Try 'my_backup help' for more information."
  else
    match argv[1]? with
    | none => .crash
    | some type =>
      if argc = 2 ∧ type = "help" then .exit 0 usage ""
      else if argc > 2 ∧ type = "help" then
        startupAbort EINVAL
          "Use just 'my_backup help' without any extra arguments for more information."
      else if argc ≥ 2 ∧ type ≠ "full" ∧ type ≠ "incremental" then
        startupAbort EINVAL
          "Wrong backup type. Now are supported: 'full', 'incremental'. Try 'my_backup help' for more information."
      else if argc = 2 then
        startupAbort EINVAL
          "Missing a path of the entity to backup. Try 'my_backup help' for more information."
      else
        match argv[2]? with
        | none => .crash
        | some source =>
          if argc = 3 then
            startupAbort EINVAL
              "Missing a destination path of the entity to backup. Try 'my_backup help' for more information."
          else
            match argv[3]? with
            | none => .crash
            | some destination =>
              match readFlags (argv.drop 4) REMOVE_BASE with
              | .ready params => .ready ⟨type, source, destination, params⟩
              | .exit code out err => .exit code out err
              | .crash => .crash

end CyberBackup

namespace CyberRestore

open CyberBase

/-- The usage text of lines 20-33 and the `std::endl` of line 34. -/
def usage : String :=
  "Usage: my_restore [SOURCE] [DESTINATION] [OPTIONAL FLAGS]\n" ++
  "A tool for restoring the backup of your files and folders from SOURCE timestamp name folder to DESTINATION" ++
  " which was created by my_backup.\n" ++
  "\nTwo backup types are available: full and incremental.\n" ++
  "  full             creates a full backup copy of the SOURCE\n" ++
  "  incremental      creates a copy of the SOURCE with differences between current state and last full backup\n" ++
  "\nOptions\n" ++
  "  create       Create a backup folder if it does not exist\n" ++
  "  override     Remove files from DESTINATION or override them\n" ++
  "  full_info    Display a backup information after process\n" ++
  "  error_info   Display info only about errors\n" ++
  "  silent       Silent mode (do not show errors)\n" ++
  "  process      Show progress status\n" ++
  "  ignore       Continue restoring despite errors\n" ++
  "\n"

/-- The loop of lines 56-75 over the optional operands. -/
def readFlags : List String → Nat → Startup Nat
  | [], params => .ready params
  | arg :: rest, params =>
    if arg = "create" then readFlags rest (params ||| CREATE_DESTINATION)
    else if arg = "override" then readFlags rest (params ||| OVERRIDE_DESTINATION)
    else if arg = "ignore" then readFlags rest (params ||| IGNORE_ERRORS)
    else if arg = "full_info" then
      readFlags rest (params ||| (SHOW_BACKUP_STAT ||| SHOW_ERROR_STAT))
    else if arg = "error_info" then readFlags rest (params ||| SHOW_ERROR_STAT)
    else if arg = "silent" then readFlags rest (params ||| SILENT)
    else if arg = "process" then readFlags rest (params ||| PROCESS)
    else
      startupAbort EINVAL
        "Wrong operand. Did you mean 'create, 'override', 'full_info', 'error_info', 'silent', 'process' or 'ignore'?"

/-- The test of line 19, `argc == 1 && std::string(argv[1]) == "help"`: with
`argc == 1` the entry `argv[1]` is the null pointer that ends `argv`, and the
construction of a string from it throws; `none` stands for that exception. -/
def helpRequested (argv : List String) : Option Bool :=
  if argv.length = 1 then
    match argv[1]? with
    | none => none
    | some arg => some (decide (arg = "help"))
  else some false

set_option linter.dupNamespace false in
/-- The constructor `CyberRestore::CyberRestore(argc, argv)`; `argv` holds the
program name and the operands, `argc` is its length. The member `type` is
never assigned and stays empty. -/
def CyberRestore (argv : List String) : Startup Members :=
  let argc := argv.length
  let type : String := ""
  match helpRequested argv with
  | none => .crash
  | some true => .exit 0 usage ""
  | some false =>
    if argc > 1 ∧ type = "help" then
      startupAbort EINVAL
        "Use just 'my_restore help' without any extra arguments for more information."
    else if argc = 1 then
      startupAbort EINVAL
        "Missing a path of the entity to restore. Try 'my_restore help' for more information."
    else
      match argv[1]? with
      | none => .crash
      | some source =>
        if argc = 2 then
          startupAbort EINVAL
            "Missing a destination path of the entity to restore. Try 'my_restore help' for more information."
        else
          match argv[2]? with
          | none => .crash
          | some destination =>
            match readFlags (argv.drop 3) REMOVE_INSIDE_ONLY with
            | .ready params => .ready ⟨type, source, destination, params⟩
            | .exit code out err => .exit code out err
            | .crash => .crash

end CyberRestore

end nt

/-! # Notions used to state the properties -/

namespace nt

/-- Blank-separated tokens of a text, as the format of the summary file
describes them. -/
def tokens : List Char → List (List Char)
  | [] => []
  | c :: cs =>
    if isspace c then tokens cs
    else
      match cs with
      | [] => [[c]]
      | d :: _ =>
        if isspace d then [c] :: tokens cs
        else
          match tokens cs with
          | t :: ts => (c :: t) :: ts
          | [] => [[c]]

/-- A stream from which extraction can be attempted: open, not failed, and at
the end of its buffer when the end-of-file flag is up. -/
def IfStream.Ready (s : IfStream) : Prop :=
  s.is_open = true ∧ s.failbit = false ∧ (s.eofbit = true → s.buf = [])

instance (s : IfStream) : Decidable s.Ready :=
  inferInstanceAs (Decidable (_ ∧ _ ∧ (_ → _)))

namespace CyberBackup

open CyberBase

/-- Tokens of the summary file of a backup directory, when it is a readable
regular file. -/
def summaryTokens (fs : FS) (dir : Path) : Option (List (List Char)) :=
  match stat fs (dir ++ [SUM_NAME]) with
  | .ok (_, .file _ c) => some (tokens c.data)
  | _ => none

/-- The verdict of the format on the tokens of a summary: the first is `full`
and the second matches the time stamp pattern. -/
def fullTokens : List (List Char) → Bool
  | k :: t :: _ => k = ['f', 'u', 'l', 'l'] && regexMatchChars t timestamp_pattern
  | _ => false

/-- The summary starts with the token `full` followed by a token that matches
the time stamp pattern. -/
def isFullSummary (fs : FS) (dir : Path) : Bool :=
  match summaryTokens fs dir with
  | some ts => fullTokens ts
  | none => false

/-- The second token of the summary. -/
def recordedTimestamp (fs : FS) (dir : Path) : String :=
  match summaryTokens fs dir with
  | some (_ :: t :: _) => String.mk t
  | _ => ""

/-- A subdirectory of the destination that chain resolution may accept: it
is enumerated under the destination, is a directory, has a name matching the
time stamp pattern and a summary that starts with `full` and a well-formed
time stamp. -/
def Qualifies (fs : FS) (destination : Path) (name : String) : Prop :=
  destination ++ [name] ∈ (directory_iterator fs destination).getD [] ∧
    is_directory fs (destination ++ [name]) = some true ∧
    regex_match name timestamp_pattern = true ∧
    isFullSummary fs (destination ++ [name]) = true

instance (fs : FS) (destination : Path) (name : String) :
    Decidable (Qualifies fs destination name) :=
  inferInstanceAs (Decidable (_ ∧ _ ∧ _ ∧ _))

/-- The entries that are directories with a name matching the time stamp
pattern. -/
def backupDirs (fs : FS) (entries : List Path) : List Path :=
  entries.filter (fun e =>
    is_directory fs e = some true &&
      match e.getLast? with
      | some dir_name => regex_match dir_name timestamp_pattern
      | none => false)

/-- The candidates in the order in which the scan visits them. -/
def candidates (fs : FS) (entries : List Path) : List Path :=
  (List.insertionSort pathLe (backupDirs fs entries)).reverse

/-- No status query of `findLastFull` throws: the kind of every entry of the
destination can be read, and so can the presence of a summary in it. -/
def Readable (fs : FS) (destination : Path) : Prop :=
  ∀ e ∈ (directory_iterator fs destination).getD [],
    is_directory fs e ≠ none ∧ fs_exists fs (e ++ [SUM_NAME]) ≠ none

instance (fs : FS) (destination : Path) : Decidable (Readable fs destination) :=
  inferInstanceAs (Decidable (∀ e ∈ _, _ ∧ _))

end CyberBackup

/-! ## Concrete inputs -/

/-- An environment with the clock at `t` in which no `chown` is refused. -/
def envAt (t : Nat) : Env := ⟨t, fun _ => none, fun _ => ""⟩

/-- The clock of the full backup runs. -/
def env0 : Env := envAt 100

/-- A destination `/b` with two full backups, a newer incremental one and a
directory that is no backup; the older full backup is enumerated first. -/
def chainFS : FS :=
  [(["b"], .dir 1),
   (["b", "2024-01-01_00-00-00"], .dir 1),
   (["b", "2024-01-01_00-00-00", "type.nt"], .file 1 "full 2024-01-01_00-00-00\n\n"),
   (["b", "2024-01-03_00-00-00"], .dir 3),
   (["b", "2024-01-03_00-00-00", "type.nt"], .file 3 "incremental 2024-01-02_00-00-00\n\n"),
   (["b", "notes"], .dir 1),
   (["b", "2024-01-02_00-00-00"], .dir 2),
   (["b", "2024-01-02_00-00-00", "type.nt"], .file 2 "full 2024-01-02_00-00-00\n\n")]

/-- A destination `/b` that holds a full backup and a link `l` that points to
itself. -/
def loopFS : FS :=
  [(["b"], .dir 1),
   (["b", "2024-01-01_00-00-00"], .dir 1),
   (["b", "2024-01-01_00-00-00", "type.nt"], .file 1 "full 2024-01-01_00-00-00\n\n"),
   (["b", "l"], .symlink "l")]

/-- A destination `/b` whose only backup directory has a summary with the kind
`full` and a second token that is no time stamp. -/
def garbageFS : FS :=
  [(["b"], .dir 1),
   (["b", "2024-01-01_00-00-00"], .dir 1),
   (["b", "2024-01-01_00-00-00", "type.nt"], .file 1 "full garbage")]

/-- A destination `/b` whose only backup directory records, as a full backup,
a well-formed time stamp that is not its own name. -/
def skewFS : FS :=
  [(["b"], .dir 1),
   (["b", "2024-01-02_00-00-00"], .dir 1),
   (["b", "2024-01-02_00-00-00", "type.nt"], .file 1 "full 2024-01-01_00-00-00\n\n")]

/-- A source `/a` with a file, whose copy in the full backup under `/b` has the
same size and modification time and other bytes. -/
def sameStampFS : FS :=
  [(["a"], .dir 5),
   (["a", "f"], .file 3 "new bytes"),
   (["b"], .dir 1),
   (["b", "2024-01-01_00-00-00"], .dir 1),
   (["b", "2024-01-01_00-00-00", "data"], .dir 5),
   (["b", "2024-01-01_00-00-00", "data", "f"], .file 3 "old bytes"),
   (["b", "2024-01-02_00-00-00"], .dir 1),
   (["b", "2024-01-02_00-00-00", "data"], .dir 1)]

/-- A source `/a` with a file `f`, where the full backup under `/b` holds a
directory `f` with the same modification time. -/
def dirStampFS : FS :=
  [(["a"], .dir 5),
   (["a", "f"], .file 3 "new bytes"),
   (["b"], .dir 1),
   (["b", "2024-01-01_00-00-00"], .dir 1),
   (["b", "2024-01-01_00-00-00", "data"], .dir 5),
   (["b", "2024-01-01_00-00-00", "data", "f"], .dir 3),
   (["b", "2024-01-02_00-00-00"], .dir 1),
   (["b", "2024-01-02_00-00-00", "data"], .dir 1)]

/-- A file system whose root directory holds the file `ab`, and a backup
directory `/b/2024-01-01_00-00-00/data`. -/
def rootFS : FS :=
  [(["ab"], .file 3 "x"),
   (["b"], .dir 1),
   (["b", "2024-01-01_00-00-00"], .dir 1),
   (["b", "2024-01-01_00-00-00", "data"], .dir 1)]

/-- A source `/a` that holds a link `l` to the directory `/t`, and an empty
destination `/b`. -/
def linkFS : FS :=
  [(["a"], .dir 5), (["a", "l"], .symlink "/t"), (["t"], .dir 7), (["b"], .dir 1)]

/-- A source `/a` with a directory `d` that holds a directory `e`; `d` was
last modified at the time the clock of `env0` shows. -/
def nestFS : FS :=
  [(["a"], .dir 5), (["a", "d"], .dir 100), (["a", "d", "e"], .dir 7), (["b"], .dir 1)]

/-- The clock of the incremental run. -/
def env1 : Env := envAt 200

/-- The clock of the restore run. -/
def env2 : Env := envAt 300

/-- The double quote, as a text. -/
def dq : String := String.mk [Char.ofNat 34]

/-- The scenario of the specification, before the full backup: the source `/a`
holds the file `f1` of ten bytes and the directory `d`; `/b` and `/c` are
empty directories. -/
def scenarioS0 : FS :=
  [(["a"], .dir 5), (["a", "f1"], .file 3 "0123456789"), (["a", "d"], .dir 4),
   (["b"], .dir 1), (["c"], .dir 1)]

/-- The scenario after the full backup at time 100. -/
def scenarioFull : FS :=
  [(["a"], .dir 5), (["a", "f1"], .file 3 "0123456789"), (["a", "d"], .dir 4),
   (["b"], .dir 100), (["c"], .dir 1),
   (["b", "2024-01-01_00-00-00"], .dir 100),
   (["b", "2024-01-01_00-00-00", "data"], .dir 100),
   (["b", "2024-01-01_00-00-00", "data", "d"], .dir 4),
   (["b", "2024-01-01_00-00-00", "data", "f1"], .file 3 "0123456789"),
   (["b", "2024-01-01_00-00-00", "type.nt"], .file 100 "full 2024-01-01_00-00-00\n\n")]

/-- The scenario after the user deleted `f1` (time 140) and created `d/f2`
(time 150); everything outside `/a` is as the full backup left it. -/
def scenarioS1 : FS :=
  [(["a"], .dir 140), (["a", "d"], .dir 150),
   (["b"], .dir 100), (["c"], .dir 1),
   (["b", "2024-01-01_00-00-00"], .dir 100),
   (["b", "2024-01-01_00-00-00", "data"], .dir 100),
   (["b", "2024-01-01_00-00-00", "data", "d"], .dir 4),
   (["b", "2024-01-01_00-00-00", "data", "f1"], .file 3 "0123456789"),
   (["b", "2024-01-01_00-00-00", "type.nt"], .file 100 "full 2024-01-01_00-00-00\n\n"),
   (["a", "d", "f2"], .file 150 "xy")]

/-- The summary the incremental backup of the scenario writes. -/
def scenarioSummary : String :=
  "incremental 2024-01-01_00-00-00\n\n" ++ dq ++ "/b/2024-01-01_00-00-00/data/f1" ++ dq ++ "\n"

/-- A summary that lists the deleted `f1` as the format describes it: the
plain path on a line of its own. -/
def plainSummary : String :=
  "incremental 2024-01-01_00-00-00\n\n/b/2024-01-01_00-00-00/data/f1\n"

/-- The scenario after the incremental backup at time 200, with the given text
in the summary of the incremental backup. -/
def scenarioIncr (summary : String) : FS :=
  [(["a"], .dir 140), (["a", "d"], .dir 150),
   (["b"], .dir 200), (["c"], .dir 1),
   (["b", "2024-01-01_00-00-00"], .dir 100),
   (["b", "2024-01-01_00-00-00", "data"], .dir 100),
   (["b", "2024-01-01_00-00-00", "data", "d"], .dir 4),
   (["b", "2024-01-01_00-00-00", "data", "f1"], .file 3 "0123456789"),
   (["b", "2024-01-01_00-00-00", "type.nt"], .file 100 "full 2024-01-01_00-00-00\n\n"),
   (["a", "d", "f2"], .file 150 "xy"),
   (["b", "2024-01-02_00-00-00"], .dir 200),
   (["b", "2024-01-02_00-00-00", "data"], .dir 200),
   (["b", "2024-01-02_00-00-00", "data", "d"], .dir 150),
   (["b", "2024-01-02_00-00-00", "data", "d", "f2"], .file 150 "xy"),
   (["b", "2024-01-02_00-00-00", "type.nt"], .file 200 summary)]

/-- The scenario after the restore of the incremental backup into `/c` at time
300, with the given text in the summary of the incremental backup. -/
def scenarioRestored (summary : String) : FS :=
  [(["a"], .dir 140), (["a", "d"], .dir 150),
   (["b"], .dir 200), (["c"], .dir 300),
   (["b", "2024-01-01_00-00-00"], .dir 100),
   (["b", "2024-01-01_00-00-00", "data"], .dir 100),
   (["b", "2024-01-01_00-00-00", "data", "d"], .dir 4),
   (["b", "2024-01-01_00-00-00", "data", "f1"], .file 3 "0123456789"),
   (["b", "2024-01-01_00-00-00", "type.nt"], .file 100 "full 2024-01-01_00-00-00\n\n"),
   (["a", "d", "f2"], .file 150 "xy"),
   (["b", "2024-01-02_00-00-00"], .dir 200),
   (["b", "2024-01-02_00-00-00", "data"], .dir 200),
   (["b", "2024-01-02_00-00-00", "data", "d"], .dir 150),
   (["b", "2024-01-02_00-00-00", "data", "d", "f2"], .file 150 "xy"),
   (["b", "2024-01-02_00-00-00", "type.nt"], .file 200 summary),
   (["c", "f1"], .file 3 "0123456789"),
   (["c", "d"], .dir 150),
   (["c", "d", "f2"], .file 150 "xy")]

/-- A node without its modification time. -/
def Node.shape : Node → Node
  | .file _ c => .file 0 c
  | .dir _ => .dir 0
  | .symlink t => .symlink t

/-- The tree below `root`: relative paths with kind, content and link target. -/
def treeOf (fs : FS) (root : Path) : List (Path × Node) :=
  (fs.filter (fun e => root.isPrefixOf e.1 && e.1 ≠ root)).map
    (fun e => (e.1.drop root.length, e.2.shape))

/-- The texts of a list, one after the other. -/
def concatAll : List String → String
  | [] => ""
  | s :: ss => s ++ concatAll ss

/-- The paths a file system holds. -/
def paths (fs : FS) : List Path := fs.map Prod.fst

namespace CyberBackup

/-- The live source path that corresponds to an entry of the reference backup:
the source followed by the text of the entry behind the data directory. -/
def livePath (source_norm full_data : Path) (entry : Path) : Path :=
  ((substr (pathString entry) ((pathString full_data).length + 1)).map
    (appendText source_norm)).getD []

/-- The verdict of the deletion scan on an entry: the live source path neither
is a link nor exists; `none` when the text of the entry is too short or a
status query throws. -/
def gone (fs : FS) (source_norm full_data : Path) (entry : Path) : Option Bool :=
  match substr (pathString entry) ((pathString full_data).length + 1) with
  | none => none
  | some relative_path =>
    match is_symlink fs (appendText source_norm relative_path) with
    | none => none
    | some true => some false
    | some false => (fs_exists fs (appendText source_norm relative_path)).map (fun b => !b)

/-- A state before the summary step of an incremental backup in which the
entry `d` of the source is a link that points to itself, while the reference
backup holds the directory `d` with the file `d/f`. -/
def scanLoopSt : CyberBase.St :=
  ⟨[(["a"], .dir 140), (["a", "d"], .symlink "d"),
    (["b"], .dir 200),
    (["b", "2024-01-01_00-00-00"], .dir 100),
    (["b", "2024-01-01_00-00-00", "data"], .dir 100),
    (["b", "2024-01-01_00-00-00", "data", "d"], .dir 4),
    (["b", "2024-01-01_00-00-00", "data", "d", "f"], .file 3 "x"),
    (["b", "2024-01-01_00-00-00", "type.nt"], .file 100 "full 2024-01-01_00-00-00\n\n"),
    (["b", "2024-01-02_00-00-00"], .dir 200),
    (["b", "2024-01-02_00-00-00", "data"], .dir 200)], [], []⟩

/-- The state before the summary step of the incremental backup of the
scenario. -/
def scenarioTransferred : CyberBase.St :=
  ⟨[(["a"], .dir 140), (["a", "d"], .dir 150),
    (["b"], .dir 200), (["c"], .dir 1),
    (["b", "2024-01-01_00-00-00"], .dir 100),
    (["b", "2024-01-01_00-00-00", "data"], .dir 100),
    (["b", "2024-01-01_00-00-00", "data", "d"], .dir 4),
    (["b", "2024-01-01_00-00-00", "data", "f1"], .file 3 "0123456789"),
    (["b", "2024-01-01_00-00-00", "type.nt"], .file 100 "full 2024-01-01_00-00-00\n\n"),
    (["a", "d", "f2"], .file 150 "xy"),
    (["b", "2024-01-02_00-00-00"], .dir 200),
    (["b", "2024-01-02_00-00-00", "data"], .dir 200),
    (["b", "2024-01-02_00-00-00", "data", "d"], .dir 150),
    (["b", "2024-01-02_00-00-00", "data", "d", "f2"], .file 150 "xy")],
   [(["a", "d"], .path ["b", "2024-01-02_00-00-00", "data", "d"]),
    (["a", "d", "f2"], .path ["b", "2024-01-02_00-00-00", "data", "d", "f2"])], []⟩

end CyberBackup

/-! ## Inputs of the restore and error-handling properties -/

/-- The scenario after the incremental backup, with a summary whose second
token is the word `old`, and a directory `/b/old` that holds a `data` tree
with the file `stale`. -/
def strayFS : FS :=
  scenarioIncr "incremental old\n\n" ++
    [(["b", "old"], .dir 7), (["b", "old", "data"], .dir 7),
     (["b", "old", "data", "stale"], .file 7 "s")]

/-- The state `strayFS` after the restore of `/b/2024-01-02_00-00-00` into
`/c` at time 300. -/
def strayRestored : FS :=
  [(["a"], .dir 140), (["a", "d"], .dir 150),
   (["b"], .dir 200), (["c"], .dir 300),
   (["b", "2024-01-01_00-00-00"], .dir 100),
   (["b", "2024-01-01_00-00-00", "data"], .dir 100),
   (["b", "2024-01-01_00-00-00", "data", "d"], .dir 4),
   (["b", "2024-01-01_00-00-00", "data", "f1"], .file 3 "0123456789"),
   (["b", "2024-01-01_00-00-00", "type.nt"], .file 100 "full 2024-01-01_00-00-00\n\n"),
   (["a", "d", "f2"], .file 150 "xy"),
   (["b", "2024-01-02_00-00-00"], .dir 200),
   (["b", "2024-01-02_00-00-00", "data"], .dir 200),
   (["b", "2024-01-02_00-00-00", "data", "d"], .dir 150),
   (["b", "2024-01-02_00-00-00", "data", "d", "f2"], .file 150 "xy"),
   (["b", "2024-01-02_00-00-00", "type.nt"], .file 200 "incremental old\n\n"),
   (["b", "old"], .dir 7), (["b", "old", "data"], .dir 7),
   (["b", "old", "data", "stale"], .file 7 "s"),
   (["c", "stale"], .file 7 "s"),
   (["c", "d"], .dir 150),
   (["c", "d", "f2"], .file 150 "xy")]

/-- The scenario after the incremental backup, with a regular file `/f`
beside it, so that no directory `/f/x` can be created. -/
def blockedFS : FS :=
  scenarioIncr scenarioSummary ++ [(["f"], .file 1 "x")]

/-- A source `/a` and a destination `/b` that holds the directory
`2024-01-02_00-00-00` of an earlier run, with its `data` directory, and the
directory `2024-01-01_00-00-00` whose summary has the kind `full` and a second
token that is no time stamp. -/
def staleFS : FS :=
  [(["a"], .dir 5), (["b"], .dir 1),
   (["b", "2024-01-01_00-00-00"], .dir 1),
   (["b", "2024-01-01_00-00-00", "type.nt"], .file 1 "full garbage"),
   (["b", "2024-01-02_00-00-00"], .dir 2),
   (["b", "2024-01-02_00-00-00", "data"], .dir 2)]

/-! ## A source with a file inside a directory -/

/-- A source `/a` whose directory `d` holds the file `f`; `/b` and `/c` are
empty directories. -/
def inPlaceS0 : FS :=
  [(["a"], .dir 5), (["a", "d"], .dir 4), (["a", "d", "f"], .file 3 "x"),
   (["b"], .dir 1), (["c"], .dir 1)]

/-- The state `inPlaceS0` after the full backup at time 100. -/
def inPlaceFull : FS :=
  [(["a"], .dir 5), (["a", "d"], .dir 4), (["a", "d", "f"], .file 3 "x"),
   (["b"], .dir 100), (["c"], .dir 1),
   (["b", "2024-01-01_00-00-00"], .dir 100),
   (["b", "2024-01-01_00-00-00", "data"], .dir 100),
   (["b", "2024-01-01_00-00-00", "data", "d"], .dir 4),
   (["b", "2024-01-01_00-00-00", "data", "d", "f"], .file 3 "x"),
   (["b", "2024-01-01_00-00-00", "type.nt"], .file 100 "full 2024-01-01_00-00-00\n\n")]

/-- The state after the user rewrote `d/f` in place at time 160: the file has
a new time and content, the directory `d` keeps its time. -/
def inPlaceS1 : FS :=
  [(["a"], .dir 5), (["a", "d"], .dir 4), (["a", "d", "f"], .file 160 "z"),
   (["b"], .dir 100), (["c"], .dir 1),
   (["b", "2024-01-01_00-00-00"], .dir 100),
   (["b", "2024-01-01_00-00-00", "data"], .dir 100),
   (["b", "2024-01-01_00-00-00", "data", "d"], .dir 4),
   (["b", "2024-01-01_00-00-00", "data", "d", "f"], .file 3 "x"),
   (["b", "2024-01-01_00-00-00", "type.nt"], .file 100 "full 2024-01-01_00-00-00\n\n")]

/-- The state `inPlaceS1` once the incremental backup at time 200 has created
its directory `/b/2024-01-02_00-00-00/data`. -/
def inPlacePrepared : FS :=
  [(["a"], .dir 5), (["a", "d"], .dir 4), (["a", "d", "f"], .file 160 "z"),
   (["b"], .dir 200), (["c"], .dir 1),
   (["b", "2024-01-01_00-00-00"], .dir 100),
   (["b", "2024-01-01_00-00-00", "data"], .dir 100),
   (["b", "2024-01-01_00-00-00", "data", "d"], .dir 4),
   (["b", "2024-01-01_00-00-00", "data", "d", "f"], .file 3 "x"),
   (["b", "2024-01-01_00-00-00", "type.nt"], .file 100 "full 2024-01-01_00-00-00\n\n"),
   (["b", "2024-01-02_00-00-00"], .dir 200),
   (["b", "2024-01-02_00-00-00", "data"], .dir 200)]

/-- The state `inPlaceS1` after the failed incremental backup: the new backup
directory is removed again. -/
def inPlaceFailed : FS :=
  [(["a"], .dir 5), (["a", "d"], .dir 4), (["a", "d", "f"], .file 160 "z"),
   (["b"], .dir 200), (["c"], .dir 1),
   (["b", "2024-01-01_00-00-00"], .dir 100),
   (["b", "2024-01-01_00-00-00", "data"], .dir 100),
   (["b", "2024-01-01_00-00-00", "data", "d"], .dir 4),
   (["b", "2024-01-01_00-00-00", "data", "d", "f"], .file 3 "x"),
   (["b", "2024-01-01_00-00-00", "type.nt"], .file 100 "full 2024-01-01_00-00-00\n\n")]

/-- The state `inPlaceFull` after the user created `d/g` at time 150; `d/f`
is as it was. -/
def siblingS1 : FS :=
  [(["a"], .dir 5), (["a", "d"], .dir 150), (["a", "d", "f"], .file 3 "x"),
   (["b"], .dir 100), (["c"], .dir 1),
   (["b", "2024-01-01_00-00-00"], .dir 100),
   (["b", "2024-01-01_00-00-00", "data"], .dir 100),
   (["b", "2024-01-01_00-00-00", "data", "d"], .dir 4),
   (["b", "2024-01-01_00-00-00", "data", "d", "f"], .file 3 "x"),
   (["b", "2024-01-01_00-00-00", "type.nt"], .file 100 "full 2024-01-01_00-00-00\n\n"),
   (["a", "d", "g"], .file 150 "y")]

/-- The state `siblingS1` after the incremental backup at time 200. -/
def siblingIncr : FS :=
  [(["a"], .dir 5), (["a", "d"], .dir 150), (["a", "d", "f"], .file 3 "x"),
   (["b"], .dir 200), (["c"], .dir 1),
   (["b", "2024-01-01_00-00-00"], .dir 100),
   (["b", "2024-01-01_00-00-00", "data"], .dir 100),
   (["b", "2024-01-01_00-00-00", "data", "d"], .dir 4),
   (["b", "2024-01-01_00-00-00", "data", "d", "f"], .file 3 "x"),
   (["b", "2024-01-01_00-00-00", "type.nt"], .file 100 "full 2024-01-01_00-00-00\n\n"),
   (["a", "d", "g"], .file 150 "y"),
   (["b", "2024-01-02_00-00-00"], .dir 200),
   (["b", "2024-01-02_00-00-00", "data"], .dir 200),
   (["b", "2024-01-02_00-00-00", "data", "d"], .dir 150),
   (["b", "2024-01-02_00-00-00", "data", "d", "g"], .file 150 "y"),
   (["b", "2024-01-02_00-00-00", "type.nt"], .file 200 "incremental 2024-01-01_00-00-00\n\n")]

/-- A system at time 300 that refuses `chown` on `/c/d` with `EPERM`. -/
def envRefused : Env :=
  ⟨300, fun dst => if dst = ["c", "d"] then some EPERM else none, fun _ => ""⟩

/-- The state of the restore of the scenario after its two merge passes. -/
def restoredSt : CyberBase.St :=
  ⟨scenarioRestored scenarioSummary,
   [(["b", "2024-01-01_00-00-00", "data", "f1"], .path ["c", "f1"]),
    (["b", "2024-01-02_00-00-00", "data", "d"], .path ["c", "d"]),
    (["b", "2024-01-02_00-00-00", "data", "d", "f2"], .path ["c", "d", "f2"])], []⟩

/-! ## The second pass, entry by entry -/

namespace CyberBase

/-- What the second pass finds for one entry after the other of a success
list: `none` when the source is a link or `setStat` returns the empty text,
else the text `setStat` returns. The file system is the one the earlier
entries left; the run ends where `fs::is_symlink` throws or `setStat` ends it. -/
def findings (env : Env) (params : Nat) (base : Option Path) :
    FS → List Outcome → Run (FS × List (Outcome × Option String))
  | fs, [] => .ok (fs, [])
  | fs, o :: rest =>
    (orCrash (is_symlink fs o.1)).bind (fun link =>
      if link then
        (findings env params base fs rest).bind (fun t => .ok (t.1, (o, none) :: t.2))
      else
        (setStat env params fs o.1 o.2.toPath base).bind (fun r =>
          (findings env params base r.1 rest).bind (fun t =>
            .ok (t.1, (o, if r.2 = "" then none else some r.2) :: t.2))))

/-- The entries without a finding, in order. -/
def kept : List (Outcome × Option String) → List Outcome
  | [] => []
  | (o, none) :: rest => o :: kept rest
  | (_, some _) :: rest => kept rest

/-- The entries with a finding, in order, each with the text of the finding in
the place of its destination. -/
def moved : List (Outcome × Option String) → List Outcome
  | [] => []
  | (_, none) :: rest => moved rest
  | (o, some m) :: rest => (o.1, .text m) :: moved rest

/-- The success list as the first loop leaves it: the destination of an entry
with a finding is replaced by the text. -/
def marked : List (Outcome × Option String) → List Outcome
  | [] => []
  | (o, none) :: rest => o :: marked rest
  | (o, some m) :: rest => (o.1, .text m) :: marked rest

/-- The positions of the entries with a finding, counted from `ind`. -/
def failedAt : Nat → List (Outcome × Option String) → List Nat
  | _, [] => []
  | ind, (_, none) :: rest => failedAt (ind + 1) rest
  | ind, (_, some _) :: rest => ind :: failedAt (ind + 1) rest

end CyberBase

end nt

/-! # Properties -/

/-! ## Streams and tokens -/

namespace nt


theorem tokens_dropWhile (cs : List Char) : tokens (cs.dropWhile isspace) = tokens cs := by
  induction cs with
  | nil => rfl
  | cons c cs ih =>
    by_cases h : isspace c = true
    · rw [List.dropWhile_cons_of_pos h, ih]; simp [tokens, h]
    · rw [List.dropWhile_cons_of_neg h]

theorem tokens_cons_of_not_space (c : Char) (cs : List Char) (h : isspace c = false) :
    tokens (c :: cs) =
      (c :: cs.takeWhile (fun x => !isspace x)) :: tokens (cs.dropWhile (fun x => !isspace x)) := by
  induction cs generalizing c with
  | nil => simp [tokens, h]
  | cons d cs ih =>
    by_cases hd : isspace d = true
    · simp [tokens, h, hd]
    · have hd' : isspace d = false := by simpa using hd
      have := ih d hd'
      rw [tokens]
      simp only [h, hd', Bool.false_eq_true, if_false]
      rw [this]
      simp [hd']

theorem extract_of_tokens_nil (s : IfStream) (str : String) (hs : s.Ready)
    (ht : tokens s.buf = []) :
    (s.extract str).1.failbit = true ∧ (s.extract str).2 = str := by
  obtain ⟨ho, hf, he⟩ := hs
  unfold IfStream.extract
  by_cases hE : s.eofbit = true
  · simp [hf, hE]
  · have hE' : s.eofbit = false := by simpa using hE
    simp only [hf, hE', ho, Bool.or_self, Bool.false_eq_true, if_false, if_true]
    cases hd : List.dropWhile isspace s.buf with
    | nil => simp
    | cons c cs =>
      exfalso
      have hc : isspace c = false := by
        have := List.head?_dropWhile_not isspace s.buf
        rw [hd] at this
        simpa using this
      have h1 := tokens_dropWhile s.buf
      rw [hd, tokens_cons_of_not_space c cs hc, ht] at h1
      simp at h1

theorem extract_of_tokens_cons (s : IfStream) (str : String) (hs : s.Ready)
    (t : List Char) (ts : List (List Char)) (ht : tokens s.buf = t :: ts) :
    (s.extract str).2 = String.mk t ∧ (s.extract str).1.failbit = false ∧
      ((s.extract str).1.eofbit = false → (s.extract str).1.Ready) ∧
      ((s.extract str).1.eofbit = true → ts = []) ∧
      tokens (s.extract str).1.buf = ts := by
  obtain ⟨ho, hf, he⟩ := hs
  by_cases hE : s.eofbit = true
  · rw [he hE] at ht; simp [tokens] at ht
  · have hE' : s.eofbit = false := by simpa using hE
    unfold IfStream.extract
    simp only [hf, hE', ho, Bool.or_self, Bool.false_eq_true, if_false, if_true]
    cases hd : List.dropWhile isspace s.buf with
    | nil =>
      have h1 := tokens_dropWhile s.buf
      rw [hd, ht] at h1
      simp [tokens] at h1
    | cons c cs =>
      have hc : isspace c = false := by
        have := List.head?_dropWhile_not isspace s.buf
        rw [hd] at this
        simpa using this
      have h1 := tokens_dropWhile s.buf
      rw [hd, tokens_cons_of_not_space c cs hc, ht] at h1
      injection h1 with h2 h3
      have e1 : List.takeWhile (fun x => !isspace x) (c :: cs) =
          c :: List.takeWhile (fun x => !isspace x) cs := by simp [hc]
      have e2 : List.dropWhile (fun x => !isspace x) (c :: cs) =
          List.dropWhile (fun x => !isspace x) cs := by simp [hc]
      simp only [e1, e2]
      refine ⟨by rw [h2], trivial, ?_, ?_, h3⟩
      · intro hne
        exact ⟨rfl, rfl, fun h => by simp only [hne] at h; exact absurd h (by decide)⟩
      · intro hemp
        have : List.dropWhile (fun x => !isspace x) cs = [] := by
          simpa [List.isEmpty_iff] using hemp
        rw [this] at h3
        simpa [tokens] using h3.symm


theorem extract_of_eof (s : IfStream) (str : String) (h : s.eofbit = true) :
    (s.extract str).1.failbit = true ∧ (s.extract str).2 = str := by
  unfold IfStream.extract
  simp [h]

end nt

/-! ## C1: the round trip -/

namespace nt

namespace CyberRestore

open CyberBase

/-- C1, at the failing input, the scenario of the specification: full backup of
`/a`, then `f1` is deleted and `d/f2` created (which gives `scenarioS1`), then
incremental backup, then restore of the incremental backup into the empty `/c`
with the default flags.
All three runs end normally, and `/c` holds `f1`, which the source no longer
holds. -/
theorem round_trip_resurrects_deleted_file :
    CyberBackup.process env0 "full" ["a"] ["b"] REMOVE_BASE "2024-01-01_00-00-00" scenarioS0 =
        .ok ⟨scenarioFull,
            [(["a", "d"], .path ["b", "2024-01-01_00-00-00", "data", "d"]),
             (["a", "f1"], .path ["b", "2024-01-01_00-00-00", "data", "f1"])], []⟩ ∧
      scenarioS1 =
        addNode (envAt 150) (remove_all_quiet (envAt 140) scenarioFull ["a", "f1"]) ["a", "d", "f2"]
          (.file 150 "xy") ∧
      CyberBackup.process env1 "incremental" ["a"] ["b"] REMOVE_BASE "2024-01-02_00-00-00"
          scenarioS1 =
        .ok ⟨scenarioIncr scenarioSummary,
            [(["a", "d"], .path ["b", "2024-01-02_00-00-00", "data", "d"]),
             (["a", "d", "f2"], .path ["b", "2024-01-02_00-00-00", "data", "d", "f2"]),
             (["a", "f1"], .text "DELETE")], []⟩ ∧
      process env2 ["b", "2024-01-02_00-00-00"] ["c"] REMOVE_INSIDE_ONLY
          (scenarioIncr scenarioSummary) =
        .ok ⟨scenarioRestored scenarioSummary,
            [(["b", "2024-01-01_00-00-00", "data", "f1"], .path ["c", "f1"]),
             (["b", "2024-01-02_00-00-00", "data", "d"], .path ["c", "d"]),
             (["b", "2024-01-02_00-00-00", "data", "d", "f2"], .path ["c", "d", "f2"])], []⟩ ∧
      treeOf scenarioS1 ["a"] = [(["d"], .dir 0), (["d", "f2"], .file 0 "xy")] ∧
      treeOf (scenarioRestored scenarioSummary) ["c"] =
        [(["f1"], .file 0 "0123456789"), (["d"], .dir 0), (["d", "f2"], .file 0 "xy")] := by
  decide

end CyberRestore

end nt

/-! ## C2: deletion markers on restore -/

namespace nt

namespace CyberRestore

open CyberBase

theorem extract_fails_of_empty (s : IfStream) (str : String) (h : s.buf = []) :
    (s.extract str).1.failbit = true := by
  unfold IfStream.extract
  split
  · rfl
  · simp [h]

theorem readAll_of_empty (n : Nat) (s : IfStream) (h : s.buf = []) : readAll n s = [] := by
  cases n with
  | zero => rfl
  | succ n => simp [readAll, extract_fails_of_empty s "" h]

/-- Whatever the summary holds, the set `to_remove` that `readSummary` hands to
the merge is empty: it is read from the stream after `close()`. -/
theorem to_remove_is_empty (env : Env) (params : Nat) (source : Path) (fs : FS)
    (r : Path × List String) (h : readSummary env params source fs = .ok r) : r.2 = [] := by
  unfold readSummary at h
  simp only [Run.bind] at h
  repeat' split at h
  all_goals first
    | (injection h with h
       subst h
       exact readAll_of_empty _ _ rfl)
    | cases h

/-- C2, at the failing input: the summary of the incremental backup lists the
path of `f1` in the full backup, here without quotes as the format describes
it, `f1` has no counterpart in the incremental backup, and yet the set
`to_remove` is empty, because it is read from the stream after `close()`, and
the restore transfers `f1` to `/c/f1`. -/
theorem restore_ignores_deletion_marker :
    tokens plainSummary.data =
        ["incremental".data, "2024-01-01_00-00-00".data, "/b/2024-01-01_00-00-00/data/f1".data] ∧
      nodeAt (scenarioIncr plainSummary)
        ["b", "2024-01-02_00-00-00", "data", "f1"] = none ∧
      readSummary env2 REMOVE_INSIDE_ONLY ["b", "2024-01-02_00-00-00"]
          (scenarioIncr plainSummary) =
        .ok (["b", "2024-01-01_00-00-00"], []) ∧
      process env2 ["b", "2024-01-02_00-00-00"] ["c"] REMOVE_INSIDE_ONLY
          (scenarioIncr plainSummary) =
        .ok ⟨scenarioRestored plainSummary,
            [(["b", "2024-01-01_00-00-00", "data", "f1"], .path ["c", "f1"]),
             (["b", "2024-01-02_00-00-00", "data", "d"], .path ["c", "d"]),
             (["b", "2024-01-02_00-00-00", "data", "d", "f2"], .path ["c", "d", "f2"])], []⟩ ∧
      nodeAt (scenarioRestored plainSummary)
        ["c", "f1"] = some (.file 3 "0123456789") := by
  decide

end CyberRestore

end nt

/-! ## C3: the deletion scan -/

namespace nt

namespace CyberBackup

open CyberBase

/-- The deletion scan in terms of the verdicts: when no verdict is an
exception, the scan appends to the success list, in walk order, one
`(live path, DELETE)` outcome for exactly the entries whose live source path
is gone, and writes for exactly those entries one line, which holds the path
of the entry between double quotes. -/
theorem deletionScan_eq (fs : FS) (source_norm full_data : Path) (entries : List Path)
    (acc : List Outcome × String)
    (h : ∀ e ∈ entries, gone fs source_norm full_data e ≠ none) :
    deletionScan fs source_norm full_data acc entries =
      some (acc.1 ++ (entries.filter (fun e => gone fs source_norm full_data e = some true)).map
          (fun e => (livePath source_norm full_data e, Target.text "DELETE")),
        acc.2 ++ concatAll
          ((entries.filter (fun e => gone fs source_norm full_data e = some true)).map
            (fun e => quoted (pathString e) ++ "\n"))) := by
  induction entries generalizing acc with
  | nil => simp [deletionScan, concatAll]
  | cons e rest ih =>
    have he := h e (List.mem_cons_self e rest)
    have hrest : ∀ x ∈ rest, gone fs source_norm full_data x ≠ none :=
      fun x hx => h x (List.mem_cons_of_mem e hx)
    rw [deletionScan]
    unfold gone at he
    unfold deletionStep
    cases hs : substr (pathString e) ((pathString full_data).length + 1) with
    | none => simp [hs] at he
    | some rel =>
      simp only [hs] at he ⊢
      cases hl : is_symlink fs (appendText source_norm rel) with
      | none => simp [hl] at he
      | some link =>
        cases link with
        | true =>
          have hg : gone fs source_norm full_data e = some false := by simp [gone, hs, hl]
          simp only [ih acc hrest]
          rw [List.filter_cons_of_neg (by simp [hg])]
        | false =>
          simp only [hl] at he ⊢
          cases hx : fs_exists fs (appendText source_norm rel) with
          | none => simp [hx] at he
          | some present =>
            cases present with
            | true =>
              have hg : gone fs source_norm full_data e = some false := by
                simp [gone, hs, hl, hx]
              simp only [ih acc hrest]
              rw [List.filter_cons_of_neg (by simp [hg])]
            | false =>
              have hg : gone fs source_norm full_data e = some true := by
                simp [gone, hs, hl, hx]
              simp only [ih _ hrest]
              rw [List.filter_cons_of_pos (by simp [hg])]
              simp only [List.map_cons, List.append_assoc, List.singleton_append, livePath, hs,
                Option.map_some', Option.getD_some, concatAll, String.append_assoc]

/-- The scan where a status query throws: the live path of the entry `d/f` of
the reference backup runs through the link `d` of the source, which points to
itself; `fs::is_symlink` throws on it and the summary step ends in an
exception. -/
theorem deletion_scan_throws_on_link_loop :
    is_symlink scanLoopSt.fs ["a", "d"] = some true ∧
    is_symlink scanLoopSt.fs ["a", "d", "f"] = none ∧
    gone scanLoopSt.fs ["a"] ["b", "2024-01-01_00-00-00", "data"]
      ["b", "2024-01-01_00-00-00", "data", "d", "f"] = none ∧
    writeSummary env1 "incremental" REMOVE_BASE ["a"] ["b", "2024-01-02_00-00-00"]
      ["b", "2024-01-01_00-00-00"] "2024-01-01_00-00-00" scanLoopSt = .crash := by
  decide

/-- C3 (failing input). The summary step of the incremental backup of the
scenario: the entry `f1` of the reference backup is gone from the source. The
`(live path, DELETE)` outcome is appended and nothing is removed, but the line
written to the summary is not the path of the entry: it is the path between
double quotes, as the stream output of an `fs::path` gives it. -/
theorem deletion_scan_writes_quoted_path :
    writeSummary env1 "incremental" REMOVE_BASE ["a"] ["b", "2024-01-02_00-00-00"]
        ["b", "2024-01-01_00-00-00"] "2024-01-01_00-00-00" scenarioTransferred =
      .ok ⟨scenarioIncr scenarioSummary,
          [(["a", "d"], .path ["b", "2024-01-02_00-00-00", "data", "d"]),
           (["a", "d", "f2"], .path ["b", "2024-01-02_00-00-00", "data", "d", "f2"]),
           (["a", "f1"], .text "DELETE")], []⟩ ∧
    scenarioSummary =
      "incremental 2024-01-01_00-00-00\n\n" ++ dq ++ "/b/2024-01-01_00-00-00/data/f1" ++ dq ++
        "\n" ∧
    scenarioSummary ≠
      "incremental 2024-01-01_00-00-00\n\n" ++ pathString ["b", "2024-01-01_00-00-00", "data", "f1"]
        ++ "\n" := by
  decide

end CyberBackup

end nt
/-! ## C4: the content of the summary file -/

namespace nt

namespace CyberBackup

open CyberBase

/-- C4, at the failing input: the incremental backup of the scenario writes the
path of the deleted `f1` between double quotes, as the stream output of an
`fs::path` does. -/
theorem summary_lists_quoted_path :
    process env1 "incremental" ["a"] ["b"] REMOVE_BASE "2024-01-02_00-00-00" scenarioS1 =
        .ok ⟨scenarioIncr scenarioSummary,
            [(["a", "d"], .path ["b", "2024-01-02_00-00-00", "data", "d"]),
             (["a", "d", "f2"], .path ["b", "2024-01-02_00-00-00", "data", "d", "f2"]),
             (["a", "f1"], .text "DELETE")], []⟩ ∧
      scenarioSummary.data =
        "incremental 2024-01-01_00-00-00\n\n".data ++ [Char.ofNat 34] ++
          "/b/2024-01-01_00-00-00/data/f1".data ++ [Char.ofNat 34, Char.ofNat 10] := by
  decide

end CyberBackup

end nt

/-! ## C5: chain resolution picks the newest full backup -/

namespace nt

namespace CyberBackup

open CyberBase

theorem mk_eq_full (k : List Char) : String.mk k = "full" ↔ k = ['f', 'u', 'l', 'l'] := by
  constructor
  · intro h; exact congrArg String.data h
  · intro h; subst h; rfl

theorem readKind_fst (s : IfStream) (hs : s.Ready) (r : String) :
    (readKind s r).1 = fullTokens (tokens s.buf) := by
  have ho := hs.1
  unfold readKind
  simp only [ho, Bool.not_true, Bool.false_eq_true, if_false]
  cases htk : tokens s.buf with
  | nil =>
    have := extract_of_tokens_nil s "" hs htk
    simp [this.1, fullTokens]
  | cons k ts =>
    obtain ⟨h2, hf, hready, heof, htoks⟩ := extract_of_tokens_cons s "" hs k ts htk
    simp only [hf, Bool.false_eq_true, if_false, h2]
    by_cases hk : k = ['f', 'u', 'l', 'l']
    · have hk' : String.mk k = "full" := (mk_eq_full k).2 hk
      simp only [hk', ne_eq, not_true_eq_false, if_false]
      cases ts with
      | nil =>
        have hfail : ((s.extract "").1.extract r).1.failbit = true := by
          by_cases he : (s.extract "").1.eofbit = true
          · exact (extract_of_eof _ r he).1
          · have he' : (s.extract "").1.eofbit = false := by simpa using he
            exact (extract_of_tokens_nil _ r (hready he') htoks).1
        simp [hfail, fullTokens]
      | cons t ts' =>
        have he' : (s.extract "").1.eofbit = false := by
          by_contra he
          have := heof (by simpa using he)
          simp at this
        obtain ⟨g2, gf, -, -, -⟩ := extract_of_tokens_cons _ r (hready he') t ts' htoks
        simp only [gf, Bool.false_eq_true, if_false, g2, regex_match, fullTokens]
        by_cases hm : regexMatchChars t timestamp_pattern = true
        · simp [hm, hk]
        · simp [hm]
    · have hk' : String.mk k ≠ "full" := fun h => hk ((mk_eq_full k).1 h)
      simp only [ne_eq, hk', not_false_eq_true, if_true]
      cases ts with
      | nil => simp [fullTokens]
      | cons t ts' => simp [fullTokens, hk]

theorem readKind_snd (s : IfStream) (hs : s.Ready) (r : String) (k t : List Char)
    (ts : List (List Char)) (htk : tokens s.buf = k :: t :: ts) (hk : k = ['f', 'u', 'l', 'l']) :
    (readKind s r).2 = String.mk t := by
  have ho := hs.1
  unfold readKind
  simp only [ho, Bool.not_true, Bool.false_eq_true, if_false]
  obtain ⟨h2, hf, hready, heof, htoks⟩ := extract_of_tokens_cons s "" hs k (t :: ts) htk
  have hk' : String.mk k = "full" := (mk_eq_full k).2 hk
  have he' : (s.extract "").1.eofbit = false := by
    by_contra he
    have := heof (by simpa using he)
    simp at this
  obtain ⟨g2, gf, -, -, -⟩ := extract_of_tokens_cons _ r (hready he') t ts htoks
  simp only [hf, Bool.false_eq_true, if_false, h2, hk', ne_eq, not_true_eq_false, gf, g2]
  split <;> rfl

theorem examine_fst (fs : FS) (dir : Path) (r : String) (x : Bool × String)
    (hx : examine fs dir r = some x) : x.1 = isFullSummary fs dir := by
  unfold isFullSummary summaryTokens
  unfold examine fs_exists at hx
  cases hst : stat fs (dir ++ [SUM_NAME]) with
  | error e =>
    rw [hst] at hx
    by_cases hn : notFound e = true
    · simp only [hn, if_true] at hx
      injection hx with hx
      rw [← hx]
    · simp [hn] at hx
  | ok qn =>
    obtain ⟨q, n⟩ := qn
    rw [hst] at hx
    simp only at hx
    injection hx with hx
    rw [← hx]
    cases n with
    | symlink t => simp [IfStream.open, hst, readKind]
    | dir m =>
      have hr : IfStream.Ready ⟨true, [], false, false⟩ := ⟨rfl, rfl, fun _ => rfl⟩
      have := readKind_fst _ hr r
      simp only [IfStream.open, hst, this]
      rfl
    | file m c =>
      have hr : IfStream.Ready ⟨true, c.data, false, false⟩ :=
        ⟨rfl, rfl, fun h => by simp at h⟩
      have := readKind_fst _ hr r
      simp only [IfStream.open, hst, this]

theorem examine_snd (fs : FS) (dir : Path) (r : String) (x : Bool × String)
    (hx : examine fs dir r = some x) (h : isFullSummary fs dir = true) :
    x.2 = recordedTimestamp fs dir := by
  unfold isFullSummary summaryTokens at h
  unfold recordedTimestamp summaryTokens
  unfold examine fs_exists at hx
  cases hst : stat fs (dir ++ [SUM_NAME]) with
  | error e => simp [hst] at h
  | ok qn =>
    obtain ⟨q, n⟩ := qn
    rw [hst] at hx
    simp only at hx
    injection hx with hx
    rw [← hx]
    cases n with
    | symlink t => simp [hst] at h
    | dir m => simp [hst] at h
    | file m c =>
      have hr : IfStream.Ready ⟨true, c.data, false, false⟩ :=
        ⟨rfl, rfl, fun h => by simp at h⟩
      rw [hst] at h
      dsimp only at h
      simp only [IfStream.open, hst]
      cases htk : tokens c.data with
      | nil => rw [htk] at h; simp [fullTokens] at h
      | cons k ts =>
        cases ts with
        | nil => rw [htk] at h; simp [fullTokens] at h
        | cons t ts' =>
          rw [htk] at h
          simp only [fullTokens, Bool.and_eq_true, decide_eq_true_eq] at h
          exact readKind_snd _ hr r k t ts' htk h.1

theorem examine_isSome (fs : FS) (dir : Path) (r : String)
    (h : fs_exists fs (dir ++ [SUM_NAME]) ≠ none) : ∃ x, examine fs dir r = some x := by
  unfold examine
  cases hx : fs_exists fs (dir ++ [SUM_NAME]) with
  | none => exact absurd hx h
  | some b => cases b <;> exact ⟨_, rfl⟩

theorem scan_of_find_some (fs : FS) (l : List Path) (r : Option Path × String) (d : Path)
    (h : l.find? (isFullSummary fs) = some d)
    (hread : ∀ x ∈ l, fs_exists fs (x ++ [SUM_NAME]) ≠ none) :
    scan fs l r = some (some d, recordedTimestamp fs d) := by
  induction l generalizing r with
  | nil => simp at h
  | cons x xs ih =>
    rw [List.find?_cons] at h
    unfold scan
    obtain ⟨v, hv⟩ := examine_isSome fs x r.2 (hread x (List.mem_cons_self x xs))
    have e1 := examine_fst fs x r.2 v hv
    rw [hv]
    cases hx : isFullSummary fs x with
    | true =>
      rw [hx] at h e1
      have e2 := examine_snd fs x r.2 v hv hx
      have hd : x = d := by simpa using h
      have : v = (true, recordedTimestamp fs x) := Prod.ext e1 e2
      rw [this, hd]
    | false =>
      rw [hx] at h e1
      have : v = (false, v.2) := Prod.ext e1 rfl
      rw [this]
      exact ih _ h (fun y hy => hread y (List.mem_cons_of_mem x hy))

theorem scan_of_find_none (fs : FS) (l : List Path) (r ret : Option Path × String)
    (h : l.find? (isFullSummary fs) = none) (hs : scan fs l r = some ret) : ret.1 = r.1 := by
  induction l generalizing r with
  | nil =>
    simp only [scan] at hs
    injection hs with hs
    rw [hs]
  | cons x xs ih =>
    rw [List.find?_cons] at h
    unfold scan at hs
    cases hv : examine fs x r.2 with
    | none => rw [hv] at hs; cases hs
    | some v =>
      have e1 := examine_fst fs x r.2 v hv
      rw [hv] at hs
      cases hx : isFullSummary fs x with
      | true => rw [hx] at h; simp at h
      | false =>
        rw [hx] at h e1
        have : v = (false, v.2) := Prod.ext e1 rfl
        rw [this] at hs
        simp only at hs
        exact ih (r.1, v.2) h hs

/-- A path the scan returns is a candidate with a full summary, and the text
returned with it is the time stamp its summary records. -/
theorem scan_some (fs : FS) (l : List Path) (r : Option Path × String) (p : Path) (ts : String)
    (hr : r.1 = none) (hs : scan fs l r = some (some p, ts)) :
    p ∈ l ∧ isFullSummary fs p = true ∧ ts = recordedTimestamp fs p := by
  induction l generalizing r with
  | nil =>
    simp only [scan] at hs
    injection hs with hs
    rw [hs] at hr
    cases hr
  | cons x xs ih =>
    unfold scan at hs
    cases hv : examine fs x r.2 with
    | none => rw [hv] at hs; cases hs
    | some v =>
      have e1 := examine_fst fs x r.2 v hv
      rw [hv] at hs
      obtain ⟨b, s⟩ := v
      cases b with
      | true =>
        simp only at hs e1
        injection hs with hs
        injection hs with h1 h2
        injection h1 with h1
        subst h1
        refine ⟨List.mem_cons_self _ _, e1.symm, ?_⟩
        rw [← h2]
        exact examine_snd fs x r.2 _ hv e1.symm
      | false =>
        simp only at hs
        obtain ⟨hm, hf, ht⟩ := ih (r.1, s) hr hs
        exact ⟨List.mem_cons_of_mem _ hm, hf, ht⟩

theorem entry_of_directory_iterator (fs : FS) (p : Path) (entries : List Path)
    (h : directory_iterator fs p = some entries) (e : Path) (he : e ∈ entries) :
    ∃ c, e = p ++ [c] := by
  unfold directory_iterator at h
  split at h
  · injection h with h
    subst h
    rw [List.mem_filterMap] at he
    obtain ⟨x, -, hx⟩ := he
    split at hx
    · split at hx
      · injection hx with hx
        exact ⟨_, hx.symm⟩
      · cases hx
    · cases hx
  · cases h

theorem le_of_append_singleton_le {α : Type} [LinearOrder α] (p : List α) (a b : α)
    (h : p ++ [a] ≤ p ++ [b]) : a ≤ b := by
  by_contra hab
  have hlt : b < a := lt_of_not_le hab
  have h1 : List.Lex (· < ·) (p ++ [b]) (p ++ [a]) :=
    List.Lex.append_left _ (List.Lex.rel hlt) p
  have h2 : p ++ [b] < p ++ [a] := h1
  exact absurd h (not_le_of_lt h2)

theorem name_le_of_pathLe (p : Path) (a b : String) (h : pathLe (p ++ [a]) (p ++ [b])) :
    a.data ≤ b.data := by
  unfold pathLe at h
  simp only [List.map_append, List.map_cons, List.map_nil] at h
  exact le_of_append_singleton_le _ _ _ h

theorem ne_empty_of_regex_match (ts : String) (h : regex_match ts timestamp_pattern = true) :
    ts ≠ "" := by
  intro he
  subst he
  simp [regex_match, regexMatchChars, timestamp_pattern] at h

theorem regex_match_recordedTimestamp (fs : FS) (d : Path) (h : isFullSummary fs d = true) :
    regex_match (recordedTimestamp fs d) timestamp_pattern = true := by
  unfold isFullSummary at h
  unfold recordedTimestamp
  cases hs : summaryTokens fs d with
  | none => rw [hs] at h; simp at h
  | some l =>
    rw [hs] at h
    match l, h with
    | k :: t :: _, h =>
      simp only [fullTokens, Bool.and_eq_true, decide_eq_true_eq] at h
      exact h.2

/-- The loop over the entries, when it ends, has collected the directories with
a matching name. -/
theorem collectBackupDirs_eq (fs : FS) (entries dirs : List Path)
    (h : collectBackupDirs fs entries = some dirs) : dirs = backupDirs fs entries := by
  induction entries generalizing dirs with
  | nil =>
    simp only [collectBackupDirs] at h
    injection h with h
    rw [← h]; rfl
  | cons e rest ih =>
    rw [collectBackupDirs] at h
    cases hd : is_directory fs e with
    | none => rw [hd] at h; cases h
    | some d =>
      rw [hd] at h
      cases hc : collectBackupDirs fs rest with
      | none => rw [hc] at h; cases h
      | some l =>
        rw [hc] at h
        have hl := ih l hc
        simp only at h
        unfold backupDirs
        rw [List.filter_cons]
        cases d with
        | false =>
          simp only [Bool.false_and, Bool.false_eq_true, if_false] at h
          injection h with h
          simp [hd, ← h, hl, backupDirs]
        | true =>
          simp only [Bool.true_and] at h
          simp only [hd, decide_True, Bool.true_and]
          split at h
          · next hm =>
            injection h with h
            rw [if_pos hm, ← h, hl]
            rfl
          · next hm =>
            injection h with h
            rw [if_neg hm, ← h, hl]
            rfl

/-- The loop over the entries ends when the kind of every entry can be read. -/
theorem collectBackupDirs_isSome (fs : FS) (entries : List Path)
    (h : ∀ e ∈ entries, is_directory fs e ≠ none) :
    collectBackupDirs fs entries = some (backupDirs fs entries) := by
  have : ∃ dirs, collectBackupDirs fs entries = some dirs := by
    induction entries with
    | nil => exact ⟨[], rfl⟩
    | cons e rest ih =>
      obtain ⟨l, hl⟩ := ih (fun x hx => h x (List.mem_cons_of_mem e hx))
      rw [collectBackupDirs]
      cases hd : is_directory fs e with
      | none => exact absurd hd (h e (List.mem_cons_self e rest))
      | some d =>
        rw [hl]
        simp only
        split <;> exact ⟨_, rfl⟩
  obtain ⟨dirs, hd⟩ := this
  rw [hd, collectBackupDirs_eq fs entries dirs hd]

theorem mem_candidates (fs : FS) (entries : List Path) (e : Path) :
    e ∈ candidates fs entries ↔ e ∈ backupDirs fs entries := by
  unfold candidates
  rw [List.mem_reverse]
  exact (List.perm_insertionSort pathLe _).mem_iff

theorem candidates_pairwise (fs : FS) (entries : List Path) :
    (candidates fs entries).Pairwise (fun a b => pathLe b a) := by
  unfold candidates
  rw [List.pairwise_reverse]
  exact List.sorted_insertionSort pathLe _

theorem findLastFull_eq (env : Env) (fs : FS) (destination : Path) (entries dirs : List Path)
    (h : directory_iterator fs destination = some entries)
    (hc : collectBackupDirs fs entries = some dirs) :
    findLastFull env fs destination =
      (orCrash (scan fs (candidates fs entries) (none, ""))).bind (fun ret =>
        if ret.2 = "" then (abort env fs ENOENT 0 none).bind (fun _ => .ok ret) else .ok ret) := by
  unfold findLastFull candidates
  rw [h]
  simp only [orCrash, Run.bind, hc, collectBackupDirs_eq fs entries dirs hc]

theorem mem_backupDirs (fs : FS) (entries : List Path) (destination : Path)
    (h : directory_iterator fs destination = some entries) (e : Path)
    (he : e ∈ backupDirs fs entries) :
    ∃ c, e = destination ++ [c] ∧ e ∈ entries ∧ is_directory fs e = some true ∧
      regex_match c timestamp_pattern = true := by
  unfold backupDirs at he
  rw [List.mem_filter] at he
  obtain ⟨hin, hp⟩ := he
  obtain ⟨c, hc⟩ := entry_of_directory_iterator fs destination entries h e hin
  subst hc
  simp at hp
  exact ⟨c, rfl, hin, hp.1, hp.2⟩

end CyberBackup

end nt
/-! ## C6: chain resolution when nothing qualifies -/

namespace nt

namespace CyberBackup

open CyberBase

/-- C6, at the failing input: the only backup directory has the summary
`full garbage`, so nothing qualifies, and yet `findLastFull` returns, with an
empty path and the rejected token, instead of ending the run with `ENOENT`. -/
theorem findLastFull_returns_rejected_token :
    isFullSummary garbageFS ["b", "2024-01-01_00-00-00"] = false ∧
      findLastFull env0 garbageFS ["b"] = .ok (none, "garbage") := by
  decide

end CyberBackup

end nt

/-! ## C7: what chain resolution accepts -/

namespace nt

namespace CyberBackup

open CyberBase

/-- C7, as stated, fails: the directory `2024-01-02_00-00-00` whose summary
records `full 2024-01-01_00-00-00` is accepted, and the returned time stamp is
not the name of the returned directory. -/
theorem findLastFull_not_self_consistent :
    findLastFull env0 skewFS ["b"] =
        .ok (some ["b", "2024-01-02_00-00-00"], "2024-01-01_00-00-00") ∧
      (["b", "2024-01-02_00-00-00"] : Path).getLast? ≠ some "2024-01-01_00-00-00" := by
  decide

/-- C7, as the code has it. Whenever `findLastFull` returns a non-empty path
with a time stamp, the path is a subdirectory of the destination that
qualifies (directory, name matching the pattern, summary starting with `full`
and a well-formed time stamp), and the returned time stamp is the second token
of that summary; the time stamp is not compared with the directory name. -/
theorem findLastFull_accepts (env : Env) (fs : FS) (destination path : Path) (ts : String)
    (h : findLastFull env fs destination = .ok (some path, ts)) :
    ∃ name, path = destination ++ [name] ∧ Qualifies fs destination name ∧
      ts = recordedTimestamp fs path ∧ regex_match ts timestamp_pattern = true := by
  cases he : directory_iterator fs destination with
  | none => simp [findLastFull, he, orCrash, Run.bind] at h
  | some entries =>
    cases hc : collectBackupDirs fs entries with
    | none => simp [findLastFull, he, hc, orCrash, Run.bind] at h
    | some dirs =>
      rw [findLastFull_eq env fs destination entries dirs he hc] at h
      cases hs : scan fs (candidates fs entries) (none, "") with
      | none => simp [hs, orCrash, Run.bind] at h
      | some ret =>
        simp only [hs, orCrash, Run.bind] at h
        have hret : ret = (some path, ts) := by
          split at h
          · simp [abort, getParam, IGNORE_ERRORS, REMOVE_BASE, REMOVE_INSIDE_ONLY, Run.bind] at h
          · injection h
        rw [hret] at hs
        obtain ⟨hyc, hy, hts⟩ := scan_some fs _ (none, "") path ts rfl hs
        rw [mem_candidates] at hyc
        obtain ⟨c, hyeq, hyin, hydir, hyname⟩ :=
          mem_backupDirs fs entries destination he path hyc
        exact ⟨c, hyeq,
          ⟨by rw [he, Option.getD_some]; exact hyeq ▸ hyin, hyeq ▸ hydir, hyname, hyeq ▸ hy⟩, hts,
          hts ▸ regex_match_recordedTimestamp fs _ hy⟩

/-- C7, as the code has it, at the destination whose backup records another
time stamp than its name. -/
theorem findLastFull_accepts_witness :
    findLastFull env0 skewFS ["b"] =
        .ok (some ["b", "2024-01-02_00-00-00"], "2024-01-01_00-00-00") ∧
      ∃ name, ["b", "2024-01-02_00-00-00"] = ["b"] ++ [name] ∧ Qualifies skewFS ["b"] name ∧
        "2024-01-01_00-00-00" = recordedTimestamp skewFS ["b", "2024-01-02_00-00-00"] ∧
        regex_match "2024-01-01_00-00-00" timestamp_pattern = true :=
  ⟨by decide,
    findLastFull_accepts env0 skewFS ["b"] ["b", "2024-01-02_00-00-00"] "2024-01-01_00-00-00"
      (by decide)⟩

end CyberBackup

end nt

/-! ## C8: change detection for regular files -/

namespace nt

namespace CyberBackup

open CyberBase

/-- A path with a size resolves to a regular file. -/
theorem stat_of_file_size (fs : FS) (p : Path) (h : (file_size fs p).isSome = true) :
    ∃ q m c, stat fs p = .ok (q, .file m c) := by
  unfold file_size at h
  cases hs : stat fs p with
  | error e => simp [hs] at h
  | ok r =>
    obtain ⟨q, n⟩ := r
    cases n with
    | file m c => exact ⟨q, m, c, rfl⟩
    | dir m => simp [hs] at h
    | symlink t => simp [hs] at h

/-- The verdict of the file branch for a regular file whose counterpart is
absent or a regular file. -/
theorem modifiedFile_eq (fs : FS) (entry full : Path)
    (hentry : (file_size fs entry).isSome = true)
    (hcp : fs_exists fs full = some false ∨ (file_size fs full).isSome = true) :
    modifiedFile fs entry full =
      some (decide (fs_exists fs full = some false ∨
        last_write_time fs entry ≠ last_write_time fs full ∨
        file_size fs entry ≠ file_size fs full)) := by
  obtain ⟨q, m, c, hst⟩ := stat_of_file_size fs entry hentry
  unfold modifiedFile
  rcases hcp with hcp | hcp
  · simp [hcp]
  · obtain ⟨q2, m2, c2, hst2⟩ := stat_of_file_size fs full hcp
    have hex : fs_exists fs full = some true := by simp [fs_exists, hst2]
    simp only [hex, last_write_time, file_size, hst, hst2, Node.mtime, differ]
    by_cases hm : m = m2
    · subst hm
      simp
    · simp [hm]

theorem executeCopy_unmodified (env : Env) (params : Nat) (func : FS → Except FsError FS)
    (st : St) (entry target_path : Path) (dst : Option Path) :
    executeCopy env params func st entry target_path dst false = .ok st := by
  simp [executeCopy]

/-- The counterpart of an entry when the source is the root directory: the
text of `/ab` is cut at position 2, so the entry is compared with, and copied
to, `data/b`. -/
theorem root_source_cuts_one_character :
    substr (pathString ["ab"]) ((pathString []).length + 1) = some "b" ∧
    transferStep env0 REMOVE_BASE [] ["b", "2024-01-01_00-00-00"] ["b", "2024-01-01_00-00-00"]
      ["b", "2024-01-01_00-00-00"] ⟨rootFS, [], []⟩ ["ab"] =
      .ok ⟨[(["ab"], .file 3 "x"), (["b"], .dir 1), (["b", "2024-01-01_00-00-00"], .dir 1),
          (["b", "2024-01-01_00-00-00", "data"], .dir 100),
          (["b", "2024-01-01_00-00-00", "data", "b"], .file 100 "x")],
        [(["ab"], .path ["b", "2024-01-01_00-00-00", "data", "b"])], []⟩ := by
  decide

end CyberBackup

end nt
/-! ## C9: symbolic links -/

namespace nt

namespace CyberBackup

open CyberBase

/-- C9, at the failing input: the source holds a link `l` to a directory. The
entry is a link, and the full backup holds a directory at its place: the
directory branch of the transfer loop takes it, since `fs::is_directory`
follows links and is asked before `fs::is_symlink`. -/
theorem symlink_to_directory_is_materialised :
    is_symlink linkFS ["a", "l"] = some true ∧
      process env0 "full" ["a"] ["b"] REMOVE_BASE "2024-01-01_00-00-00" linkFS =
        .ok ⟨[(["a"], .dir 5), (["a", "l"], .symlink "/t"), (["t"], .dir 7), (["b"], .dir 100),
              (["b", "2024-01-01_00-00-00"], .dir 100),
              (["b", "2024-01-01_00-00-00", "data"], .dir 100),
              (["b", "2024-01-01_00-00-00", "data", "l"], .dir 100),
              (["b", "2024-01-01_00-00-00", "type.nt"], .file 100 "full 2024-01-01_00-00-00\n\n")],
            [(["a", "l"], .path ["b", "2024-01-01_00-00-00", "data", "l"])], []⟩ := by
  decide

end CyberBackup

end nt

/-! ## C10: full mode -/

namespace nt

namespace CyberBackup

open CyberBase

/-- C10, at the failing input: in a full backup the directory `d`, walked as
an entry, is classified Unchanged and reaches neither list. Its copy exists
already when its turn comes, made by `create_directories` for `d/e`, and has
the modification time of `d`. -/
theorem full_backup_skips_directory :
    recursive_directory_iterator nestFS ["a"] = some [["a", "d"], ["a", "d", "e"]] ∧
      process env0 "full" ["a"] ["b"] REMOVE_BASE "2024-01-01_00-00-00" nestFS =
        .ok ⟨[(["a"], .dir 5), (["a", "d"], .dir 100), (["a", "d", "e"], .dir 7),
              (["b"], .dir 100),
              (["b", "2024-01-01_00-00-00"], .dir 100),
              (["b", "2024-01-01_00-00-00", "data"], .dir 100),
              (["b", "2024-01-01_00-00-00", "data", "d"], .dir 100),
              (["b", "2024-01-01_00-00-00", "data", "d", "e"], .dir 7),
              (["b", "2024-01-01_00-00-00", "type.nt"], .file 100 "full 2024-01-01_00-00-00\n\n")],
            [(["a", "d", "e"], .path ["b", "2024-01-01_00-00-00", "data", "d", "e"])], []⟩ := by
  decide

end CyberBackup

end nt

/-! ## C11: summaries the restore takes for sound -/

namespace nt
namespace CyberRestore

open CyberBase

/-- C11 (failing inputs). The test of line 99 joins its two parts with `&&`, so
the pattern is consulted only when the second extraction failed. A summary
`incremental garbage` passes the test, and the restore ends with `ENOENT` for
the missing directory `/b/garbage/data`, not with `EINVAL`. A summary
`incremental old`, beside a directory `/b/old/data`, passes as well, and the
restore runs to its end and writes into the destination. A summary that holds
the single token `2024-01-01_00-00-00` is restored like a sound one. The empty
summary and the summary with the single token `incremental` end with `EINVAL`
and leave the file system as it was. -/
theorem restore_accepts_malformed_timestamp :
    process env2 ["b", "2024-01-02_00-00-00"] ["c"] REMOVE_INSIDE_ONLY
        (scenarioIncr "incremental garbage\n\n") =
      .exit ENOENT (scenarioIncr "incremental garbage\n\n") ∧
    regex_match "old" timestamp_pattern = false ∧
    process env2 ["b", "2024-01-02_00-00-00"] ["c"] REMOVE_INSIDE_ONLY strayFS =
      .ok ⟨strayRestored,
        [(["b", "old", "data", "stale"], .path ["c", "stale"]),
         (["b", "2024-01-02_00-00-00", "data", "d"], .path ["c", "d"]),
         (["b", "2024-01-02_00-00-00", "data", "d", "f2"], .path ["c", "d", "f2"])], []⟩ ∧
    process env2 ["b", "2024-01-02_00-00-00"] ["c"] REMOVE_INSIDE_ONLY
        (scenarioIncr "2024-01-01_00-00-00\n") =
      .ok ⟨scenarioRestored "2024-01-01_00-00-00\n",
        [(["b", "2024-01-01_00-00-00", "data", "f1"], .path ["c", "f1"]),
         (["b", "2024-01-02_00-00-00", "data", "d"], .path ["c", "d"]),
         (["b", "2024-01-02_00-00-00", "data", "d", "f2"], .path ["c", "d", "f2"])], []⟩ ∧
    process env2 ["b", "2024-01-02_00-00-00"] ["c"] REMOVE_INSIDE_ONLY (scenarioIncr "") =
      .exit EINVAL (scenarioIncr "") ∧
    process env2 ["b", "2024-01-02_00-00-00"] ["c"] REMOVE_INSIDE_ONLY
        (scenarioIncr "incremental\n") =
      .exit EINVAL (scenarioIncr "incremental\n") := by
  decide

end CyberRestore
end nt

/-! ## Flag words and fatal failures -/

namespace nt
namespace CyberBase

/-- A flag that is a power of two is set exactly when the bit is. -/
theorem getParam_two_pow (v k : Nat) : getParam v (2 ^ k) = v.testBit k := by
  unfold getParam
  rw [Nat.and_two_pow]
  cases v.testBit k <;> simp

/-- The flag word with `IGNORE_ERRORS` and `REMOVE_BASE` cleared: both are
clear and `REMOVE_INSIDE_ONLY` is as it was. -/
theorem getParam_nullify_ignore_base (params : Nat) :
    getParam (nullifyParams params [IGNORE_ERRORS, REMOVE_BASE]) IGNORE_ERRORS = false ∧
    getParam (nullifyParams params [IGNORE_ERRORS, REMOVE_BASE]) REMOVE_BASE = false ∧
    getParam (nullifyParams params [IGNORE_ERRORS, REMOVE_BASE]) REMOVE_INSIDE_ONLY =
      getParam params REMOVE_INSIDE_ONLY := by
  have h1 : IGNORE_ERRORS = 2 ^ 1 := rfl
  have h6 : REMOVE_BASE = 2 ^ 6 := rfl
  have h7 : REMOVE_INSIDE_ONLY = 2 ^ 7 := rfl
  simp only [nullifyParams, List.foldl]
  rw [h1, h6, h7]
  simp only [getParam_two_pow, Nat.testBit_and, Nat.testBit_xor, Nat.testBit_two_pow_self]
  refine ⟨?_, ?_, ?_⟩
  · cases params.testBit 1 <;> simp
  · cases params.testBit 6 <;> simp
  · have a : Nat.testBit 2 7 = false := by decide
    have b : Nat.testBit 64 7 = false := by decide
    cases params.testBit 7 <;> simp [a, b]

/-- The flag word with `IGNORE_ERRORS` and `REMOVE_INSIDE_ONLY` cleared: both
are clear. -/
theorem getParam_nullify_ignore_inside (params : Nat) :
    getParam (nullifyParams params [IGNORE_ERRORS, REMOVE_INSIDE_ONLY]) IGNORE_ERRORS = false ∧
    getParam (nullifyParams params [IGNORE_ERRORS, REMOVE_INSIDE_ONLY]) REMOVE_INSIDE_ONLY =
      false := by
  have h1 : IGNORE_ERRORS = 2 ^ 1 := rfl
  have h7 : REMOVE_INSIDE_ONLY = 2 ^ 7 := rfl
  simp only [nullifyParams, List.foldl]
  rw [h1, h7]
  simp only [getParam_two_pow, Nat.testBit_and, Nat.testBit_xor, Nat.testBit_two_pow_self]
  refine ⟨?_, ?_⟩
  · cases params.testBit 1 <;> simp
  · cases params.testBit 7 <;> simp

/-- A failure that clears `IGNORE_ERRORS` and `REMOVE_BASE` ends the run
with the code and leaves the file system as it is, when `REMOVE_INSIDE_ONLY`
is clear. -/
theorem abort_nullify_ignore_base (env : Env) (fs : FS) (code params : Nat)
    (base : Option Path) (hp : getParam params REMOVE_INSIDE_ONLY = false) :
    abort env fs code (nullifyParams params [IGNORE_ERRORS, REMOVE_BASE]) base =
      .exit code fs := by
  obtain ⟨h1, h2, h3⟩ := getParam_nullify_ignore_base params
  simp [abort, h1, h2, h3, hp]

/-- A failure that clears `IGNORE_ERRORS` and `REMOVE_INSIDE_ONLY`, with no
base, ends the run with the code and leaves the file system as it is. -/
theorem abort_nullify_ignore_inside (env : Env) (fs : FS) (code params : Nat) :
    abort env fs code (nullifyParams params [IGNORE_ERRORS, REMOVE_INSIDE_ONLY]) none =
      .exit code fs := by
  obtain ⟨h1, h2⟩ := getParam_nullify_ignore_inside params
  simp [abort, h1, h2]

/-- A directory resolves, with a directory node. -/
theorem stat_of_is_directory (fs : FS) (p : Path) (h : is_directory fs p = some true) :
    ∃ q m, stat fs p = .ok (q, .dir m) := by
  unfold is_directory at h
  cases hs : stat fs p with
  | error e =>
    rw [hs] at h
    by_cases hn : notFound e = true <;> simp [hn] at h
  | ok r =>
    obtain ⟨q, n⟩ := r
    rw [hs] at h
    cases n with
    | dir m => exact ⟨q, m, rfl⟩
    | file m c => simp at h
    | symlink t => simp at h

/-- A directory has a canonical path. -/
theorem canonical_of_is_directory (fs : FS) (p : Path) (h : is_directory fs p = some true) :
    ∃ q, canonical fs p = some q := by
  obtain ⟨q, m, hs⟩ := stat_of_is_directory fs p h
  unfold stat at hs
  unfold canonical
  cases hr : resolve fs 41 [] p with
  | error e => rw [hr] at hs; cases hs
  | ok q1 => exact ⟨q1, rfl⟩

/-- A directory can be iterated. -/
theorem directory_iterator_of_is_directory (fs : FS) (p : Path)
    (h : is_directory fs p = some true) : ∃ entries, directory_iterator fs p = some entries := by
  obtain ⟨q, m, hs⟩ := stat_of_is_directory fs p h
  unfold directory_iterator
  rw [hs]
  exact ⟨_, rfl⟩

end CyberBase
end nt

/-! ## C12: a backup directory that exists -/

namespace nt
namespace CyberBackup

open CyberBase

/-- When `findLastFull` ends the run, it does so with `ENOENT` and leaves the
file system as it was. -/
theorem findLastFull_exit (env : Env) (fs : FS) (destination : Path) (code : Nat) (fs1 : FS)
    (h : findLastFull env fs destination = .exit code fs1) : code = ENOENT ∧ fs1 = fs := by
  unfold findLastFull at h
  cases he : directory_iterator fs destination with
  | none => simp [he, orCrash, Run.bind] at h
  | some entries =>
    cases hc : collectBackupDirs fs entries with
    | none => simp [he, hc, orCrash, Run.bind] at h
    | some dirs =>
      cases hs : scan fs (List.insertionSort pathLe dirs).reverse (none, "") with
      | none => simp [he, hc, hs, orCrash, Run.bind] at h
      | some ret =>
        simp only [he, hc, hs, orCrash, Run.bind] at h
        split at h
        · have ha : abort env fs ENOENT 0 none = .exit ENOENT fs := rfl
          rw [ha] at h
          simp only at h
          injection h with h1 h2
          exact ⟨h1.symm, h2.symm⟩
        · cases h

/-- When the choice of the reference ends the run, it does so with `ENOENT`
and leaves the file system as it was. -/
theorem selectReference_exit (env : Env) (type : String) (destination : Path)
    (timestamp : String) (fs : FS) (code : Nat) (fs1 : FS)
    (h : selectReference env type destination timestamp fs = .exit code fs1) :
    code = ENOENT ∧ fs1 = fs := by
  unfold selectReference at h
  split at h
  · cases hf : findLastFull env fs destination with
    | ok ret =>
      rw [hf] at h
      simp only [Run.bind] at h
      cases hc : ret.1.bind (canonical fs) with
      | none => simp [hc, orCrash] at h
      | some q => simp [hc, orCrash] at h
    | exit c f =>
      rw [hf] at h
      simp only [Run.bind] at h
      injection h with h1 h2
      subst h1 h2
      exact findLastFull_exit env fs destination _ _ hf
    | crash => rw [hf] at h; cases h
  · cases h

/-- Setting flags other than `REMOVE_INSIDE_ONLY` leaves it as it was. -/
theorem getParam_enable_inside (params : Nat) (args : List Nat)
    (h : ∀ a ∈ args, Nat.testBit a 7 = false) :
    getParam (enableParams params args) REMOVE_INSIDE_ONLY = getParam params REMOVE_INSIDE_ONLY := by
  have h7 : REMOVE_INSIDE_ONLY = 2 ^ 7 := rfl
  rw [h7, getParam_two_pow, getParam_two_pow]
  unfold enableParams
  induction args generalizing params with
  | nil => rfl
  | cons a rest ih =>
    rw [List.foldl_cons, ih _ (fun b hb => h b (List.mem_cons_of_mem a hb)), Nat.testBit_or,
      h a (List.mem_cons_self a rest), Bool.or_false]

/-- The operands never set `REMOVE_INSIDE_ONLY`. -/
theorem readFlags_inside (args : List String) :
    ∀ (params r : Nat), readFlags args params = .ready r →
      getParam r REMOVE_INSIDE_ONLY = getParam params REMOVE_INSIDE_ONLY := by
  induction args with
  | nil =>
    intro params r h
    rw [readFlags] at h
    injection h with h
    rw [h]
  | cons arg rest ih =>
    intro params r h
    rw [readFlags] at h
    split at h
    · rw [ih _ r h]; exact getParam_enable_inside _ _ (by decide)
    · split at h
      · rw [ih _ r h]; exact getParam_enable_inside _ _ (by decide)
      · split at h
        · rw [ih _ r h]; exact getParam_enable_inside _ _ (by decide)
        · split at h
          · rw [ih _ r h]; exact getParam_enable_inside _ _ (by decide)
          · split at h
            · rw [ih _ r h]; exact getParam_enable_inside _ _ (by decide)
            · split at h
              · rw [ih _ r h]; exact getParam_enable_inside _ _ (by decide)
              · cases h

/-- The flag word the constructor of the backup program builds has
`REMOVE_INSIDE_ONLY` clear. -/
theorem constructor_inside_clear (argv : List String) (m : Members)
    (h : CyberBackup argv = .ready m) : getParam m.params REMOVE_INSIDE_ONLY = false := by
  unfold CyberBackup at h
  simp only at h
  repeat' split at h
  all_goals first
    | (cases h
       simp only
       rw [readFlags_inside _ _ _ (by assumption)]
       decide)
    | cases h

/-- What holds of C12. With a source whose kind can be read, a destination
that is a directory and holds a directory named by the time stamp, and a flag
word the constructor can build (`REMOVE_INSIDE_ONLY` clear), the run exits with
`ENOENT` (source missing, or no reference found) or with `ENOTEMPTY`, and the
file system is as it was; the one other outcome is an incremental run in which
the choice of the reference ends in an exception. -/
theorem process_of_existing_backup (env : Env) (type : String) (source destination : Path)
    (params : Nat) (timestamp : String) (fs : FS)
    (hs : is_directory fs source ≠ none)
    (hd : is_directory fs destination = some true)
    (ht : is_directory fs (destination ++ [timestamp]) = some true)
    (hp : getParam params REMOVE_INSIDE_ONLY = false) :
    process env type source destination params timestamp fs = .exit ENOENT fs ∨
    process env type source destination params timestamp fs = .exit ENOTEMPTY fs ∨
    (type = "incremental" ∧ selectReference env type destination timestamp fs = .crash ∧
      process env type source destination params timestamp fs = .crash) := by
  have hprep : prepareDestination env params destination timestamp fs = .exit ENOTEMPTY fs := by
    simp [prepareDestination, hd, ht, abort_nullify_ignore_base env fs _ params _ hp, Run.bind,
      orCrash]
  unfold process
  cases hsrc : is_directory fs source with
  | none => exact absurd hsrc hs
  | some present =>
    cases present with
    | false =>
      left
      simp [abort_nullify_ignore_base env fs _ params _ hp, Run.bind, orCrash]
    | true =>
      simp only [orCrash, Run.bind, Bool.not_true, Bool.false_eq_true, if_false]
      cases hsel : selectReference env type destination timestamp fs with
      | ok ref =>
        right; left
        simp only [hprep]
      | exit code fs1 =>
        left
        obtain ⟨h1, h2⟩ := selectReference_exit env type destination timestamp fs code fs1 hsel
        rw [h1, h2]
      | crash =>
        right; right
        refine ⟨?_, rfl, rfl⟩
        by_contra hty
        simp [selectReference, hty] at hsel

/-- C12 (failing input). The destination `/b` holds the directory
`2024-01-02_00-00-00` of an earlier run and the directory
`2024-01-01_00-00-00` with the summary `full garbage`. An incremental backup
with the time stamp `2024-01-02_00-00-00` does not exit with a code: nothing
qualifies as a reference, `findLastFull` returns an empty path with the
rejected token, and `fs::canonical(fs::absolute(""))` throws inside the
`noexcept` function, with or without `ignore`. The test of
`PrepareDestination` is not reached; a full backup reaches it and exits with
`ENOTEMPTY`, the file system as it was. -/
theorem existing_backup_ends_in_terminate :
    is_directory staleFS ["b"] = some true ∧
    is_directory staleFS ["b", "2024-01-02_00-00-00"] = some true ∧
    findLastFull env0 staleFS ["b"] = .ok (none, "garbage") ∧
    process env0 "incremental" ["a"] ["b"] REMOVE_BASE "2024-01-02_00-00-00" staleFS = .crash ∧
    process env0 "incremental" ["a"] ["b"] (REMOVE_BASE ||| IGNORE_ERRORS)
      "2024-01-02_00-00-00" staleFS = .crash ∧
    process env0 "full" ["a"] ["b"] REMOVE_BASE "2024-01-02_00-00-00" staleFS =
      .exit ENOTEMPTY staleFS := by
  decide

end CyberBackup
end nt

/-! ## C13: a destination that holds entries -/

namespace nt
namespace CyberBase

/-- Resolution of a path that resolves with further components appended. -/
theorem walkPath_prefix (fs : FS) (onLink : Path → List String → Except Nat Path)
    (hl : ∀ cur comps extra, (∃ q, onLink cur (comps ++ extra) = .ok q) →
      ∃ q, onLink cur comps = .ok q)
    (comps extra : List String) :
    ∀ cur, (∃ q, walkPath fs onLink cur (comps ++ extra) = .ok q) →
      ∃ q, walkPath fs onLink cur comps = .ok q := by
  induction comps with
  | nil => intro cur _; exact ⟨cur, by simp [walkPath]⟩
  | cons c rest ih =>
    intro cur h
    rw [List.cons_append, walkPath] at h
    rw [walkPath]
    by_cases h1 : c = "" ∨ c = "."
    · rw [if_pos h1] at h ⊢
      exact ih cur h
    · rw [if_neg h1] at h ⊢
      by_cases h2 : c = ".."
      · rw [if_pos h2] at h ⊢
        exact ih _ h
      · rw [if_neg h2] at h ⊢
        cases hn : nodeAt fs (cur ++ [c]) with
        | none => rw [hn] at h; simp at h
        | some n =>
          rw [hn] at h
          cases n with
          | dir m => exact ih _ h
          | file m content =>
            simp only at h ⊢
            by_cases hr : rest = []
            · simp [hr]
            · have : rest ++ extra ≠ [] := by simp [hr]
              rw [if_neg this] at h
              simp at h
          | symlink t =>
            simp only at h ⊢
            rw [← List.append_assoc] at h
            exact hl _ _ _ h

/-- Resolution of a path that resolves with further components appended, for
every bound on the links followed. -/
theorem resolve_prefix (fs : FS) (n : Nat) :
    ∀ cur comps extra, (∃ q, resolve fs n cur (comps ++ extra) = .ok q) →
      ∃ q, resolve fs n cur comps = .ok q := by
  induction n with
  | zero => intro cur comps extra h; simp [resolve] at h
  | succ n ih =>
    intro cur comps extra h
    rw [resolve] at h ⊢
    exact walkPath_prefix fs (resolve fs n) ih comps extra cur h

/-- The parent of a directory has a canonical path. -/
theorem canonical_of_is_directory_append (fs : FS) (p : Path) (extra : List String)
    (h : is_directory fs (p ++ extra) = some true) : ∃ q, canonical fs p = some q := by
  obtain ⟨q, hq⟩ := canonical_of_is_directory fs (p ++ extra) h
  have hr : ∃ q, resolve fs 41 [] (p ++ extra) = .ok q := by
    unfold canonical at hq
    cases hr : resolve fs 41 [] (p ++ extra) with
    | error e => rw [hr] at hq; cases hq
    | ok q1 => exact ⟨q1, rfl⟩
  obtain ⟨q2, h2⟩ := resolve_prefix fs 41 [] p extra hr
  exact ⟨q2, by simp [canonical, h2]⟩

end CyberBase

namespace CyberRestore
open CyberBase

/-- The outcomes of `readSummary`: exit with `ENOENT` or `EINVAL` and the file
system as it was, an exception, or a result. -/
theorem readSummary_cases (env : Env) (params : Nat) (source : Path) (fs : FS) :
    readSummary env params source fs = .exit ENOENT fs ∨
    readSummary env params source fs = .exit EINVAL fs ∨
    readSummary env params source fs = .crash ∨
    ∃ s, readSummary env params source fs = .ok s := by
  unfold readSummary
  simp only [abort_nullify_ignore_inside]
  split
  · left; rfl
  · split
    · right; left; rfl
    · split
      · right; left; rfl
      · simp only [Run.bind]
        cases hd : is_directory fs
            (appendText source.dropLast
              (((IfStream.open fs (source ++ [SUM_NAME])).extract "").1.extract
                ((IfStream.open fs (source ++ [SUM_NAME])).extract "").2).2 ++ [DIR_NAME]) with
        | none => right; right; left; rfl
        | some present =>
          cases present with
          | false => left; rfl
          | true =>
            right; right; right
            obtain ⟨q, hq⟩ := canonical_of_is_directory_append fs _ _ hd
            simp only [orCrash, Bool.not_true, Bool.false_eq_true, if_false, hq]
            exact ⟨_, rfl⟩

/-- What can be iterated is a directory. -/
theorem is_directory_of_directory_iterator (fs : FS) (p : Path) (entries : List Path)
    (h : directory_iterator fs p = some entries) : is_directory fs p = some true := by
  unfold directory_iterator at h
  unfold is_directory
  cases hs : stat fs p with
  | error e => rw [hs] at h; simp at h
  | ok r =>
    obtain ⟨d, n⟩ := r
    rw [hs] at h
    cases n with
    | dir m => rfl
    | file m c => simp at h
    | symlink t => simp at h

/-- With a destination that holds an entry and `OVERRIDE_DESTINATION` clear,
`PrepareDestination` ends the run with `ENOTEMPTY` at the first entry and
leaves the file system as it was. -/
theorem prepareDestination_of_nonempty (env : Env) (params : Nat) (destination : Path) (fs : FS)
    (e : Path) (es : List Path)
    (he : directory_iterator fs destination = some (e :: es))
    (ho : getParam params OVERRIDE_DESTINATION = false) :
    prepareDestination env params destination fs = .exit ENOTEMPTY fs := by
  have hd := is_directory_of_directory_iterator fs destination _ he
  unfold prepareDestination
  simp only [hd, Bool.not_true, Bool.false_eq_true, if_false, he, orCrash, Run.bind, ho,
    abort_nullify_ignore_inside, List.foldlM, clearStep]
  rfl

end CyberRestore
end nt
/-! ## C14: fatal and ignored errors -/

namespace nt
namespace CyberBase

/-- With `IGNORE_ERRORS` set `abort` returns and removes nothing. -/
theorem abort_of_ignore (env : Env) (fs : FS) (code params : Nat) (base : Option Path)
    (h : getParam params IGNORE_ERRORS = true) : abort env fs code params base = .ok () := by
  simp [abort, h]

/-- With `IGNORE_ERRORS` and `REMOVE_INSIDE_ONLY` clear `abort` exits with the
code it was given; the base is removed when `REMOVE_BASE` is set. -/
theorem abort_of_fatal (env : Env) (fs : FS) (code params : Nat) (base : Option Path)
    (h : getParam params IGNORE_ERRORS = false) (hi : getParam params REMOVE_INSIDE_ONLY = false) :
    abort env fs code params base =
      .exit code (if getParam params REMOVE_BASE then
        match base with
        | some b => remove_all_quiet env fs b
        | none => fs
      else fs) := by
  simp [abort, h, hi]

/-- With `IGNORE_ERRORS` set `processFSError` returns the classified message. -/
theorem processFSError_of_ignore (env : Env) (fs : FS) (error : FsError) (params : Nat)
    (base : Option Path) (h : getParam params IGNORE_ERRORS = true) :
    processFSError env fs error params base =
      .ok (fsErrorText env error.code error.path1 error.path2) := by
  simp [processFSError, abort_of_ignore env fs error.code params base h, Run.bind]

/-- With `IGNORE_ERRORS` set a failed call of `executeCopy` leaves the file
system and the success list as they were and appends the entry with the
classified message to the error list. -/
theorem executeCopy_of_ignore (env : Env) (params : Nat) (func : FS → Except FsError FS)
    (st : St) (entry target_path : Path) (dst : Option Path) (error : FsError)
    (h : getParam params IGNORE_ERRORS = true) (hf : func st.fs = .error error) :
    executeCopy env params func st entry target_path dst true =
      .ok ⟨st.fs, st.success,
        st.errors ++ [(entry, .text (fsErrorText env error.code error.path1 error.path2))]⟩ := by
  simp [executeCopy, hf, processFSError_of_ignore env st.fs error params dst h, Run.bind]

/-- With `IGNORE_ERRORS` clear and `REMOVE_INSIDE_ONLY` clear `processFSError`
exits with the code of the error. -/
theorem processFSError_of_fatal (env : Env) (fs : FS) (error : FsError) (params : Nat)
    (base : Option Path) (h : getParam params IGNORE_ERRORS = false)
    (hi : getParam params REMOVE_INSIDE_ONLY = false) :
    ∃ fs1, processFSError env fs error params base = .exit error.code fs1 :=
  ⟨_, by rw [processFSError, abort_of_fatal env fs error.code params base h hi]; rfl⟩

/-- C14 (failing input). With `IGNORE_ERRORS` clear and `REMOVE_INSIDE_ONLY`
set, `abort` opens a `fs::directory_iterator` on the base outside any `try`.
When the base is not an existing directory the iterator throws, and
`processFSError` ends in an exception, not in `std::exit` with the code of the
error. The restore, whose flag word always holds `REMOVE_INSIDE_ONLY`, meets
this when the operand `create` is given and the destination `/f/x` cannot be
created because `/f` is a regular file: `fs::create_directories` fails with
`ENOTDIR`, and the run ends in `std::terminate`. -/
theorem processFSError_throws_on_missing_base :
    getParam REMOVE_INSIDE_ONLY IGNORE_ERRORS = false ∧
    processFSError env2 blockedFS ⟨ENOTDIR, "/f/x", ""⟩ REMOVE_INSIDE_ONLY (some ["f", "x"]) =
      .crash ∧
    CyberRestore.CyberRestore ["my_restore", "/b/2024-01-02_00-00-00", "/f/x", "create"] =
      .ready ⟨"", "/b/2024-01-02_00-00-00", "/f/x", REMOVE_INSIDE_ONLY ||| CREATE_DESTINATION⟩ ∧
    getParam (REMOVE_INSIDE_ONLY ||| CREATE_DESTINATION) IGNORE_ERRORS = false ∧
    CyberRestore.process env2 ["b", "2024-01-02_00-00-00"] ["f", "x"]
        (REMOVE_INSIDE_ONLY ||| CREATE_DESTINATION) blockedFS = .crash := by
  decide

end CyberBase
end nt

/-! ## C15: the operand `help` of the restore program -/

namespace nt
namespace CyberRestore

open CyberBase

/-- C15 (failing input). The test of line 19 asks for `argc == 1`, so with the
single operand `help` (`argc == 2`) the usage text is not printed: `help` is
taken for the source path and the constructor exits with `EINVAL` for the
missing destination. The backup program, whose test asks for `argc == 2`,
prints its usage text and exits with 0. With no operand at all the restore
program builds a string from the null pointer `argv[1]`. -/
theorem restore_help_is_invalid_argument :
    CyberRestore ["my_restore", "help"] =
      .exit EINVAL ""
        "Missing a destination path of the entity to restore. Try 'my_restore help' for more information.\n" ∧
    CyberBackup.CyberBackup ["my_backup", "help"] = .exit 0 CyberBackup.usage "" ∧
    CyberRestore ["my_restore"] = .crash :=
  ⟨by decide, rfl, by decide⟩

end CyberRestore
end nt

/-! ## C16: the order of the transfer list -/

namespace nt
namespace CyberBase

/-- The loop that builds the list, from any list: when no status query throws,
directories are put in front, the others behind. -/
theorem buildFrom_eq (fs : FS) (entries : List Path) :
    ∀ acc : List Path, buildFrom fs acc entries =
      if ∀ e ∈ entries, is_directory fs e ≠ none then
        some ((entries.filter (fun e => is_directory fs e = some true)).reverse ++ acc ++
          entries.filter (fun e => is_directory fs e = some false))
      else none := by
  induction entries with
  | nil => intro acc; simp [buildFrom]
  | cons e es ih =>
    intro acc
    rw [buildFrom]
    cases hd : is_directory fs e with
    | none => simp [hd]
    | some d =>
      cases d with
      | true =>
        simp only [ih, List.mem_cons, forall_eq_or_imp, hd]
        by_cases hall : ∀ a ∈ es, is_directory fs a ≠ none
        · simp [hall, hd]
        · simp [hall]
      | false =>
        simp only [ih, List.mem_cons, forall_eq_or_imp, hd]
        by_cases hall : ∀ a ∈ es, is_directory fs a ≠ none
        · simp [hall, hd]
        · simp [hall]

/-- An element of a concatenation of blocks lies in one of the blocks. -/
theorem flatMap_split {α β : Type} (f : α → List β) :
    ∀ (cs : List α) (pre : List β) (b : β) (post : List β),
      cs.flatMap f = pre ++ b :: post →
      ∃ cs1 c cs2 p1 p2, cs = cs1 ++ c :: cs2 ∧ f c = p1 ++ b :: p2 ∧
        pre = cs1.flatMap f ++ p1 ∧ post = p2 ++ cs2.flatMap f := by
  intro cs
  induction cs with
  | nil => intro pre b post h; simp at h
  | cons c cs ih =>
    intro pre b post h
    rw [List.flatMap_cons, List.append_eq_append_iff] at h
    rcases h with ⟨a', h1, h2⟩ | ⟨c', h1, h2⟩
    · obtain ⟨cs1, c0, cs2, p1, p2, e1, e2, e3, e4⟩ := ih a' b post h2
      refine ⟨c :: cs1, c0, cs2, p1, p2, by rw [e1]; rfl, e2, ?_, e4⟩
      rw [h1, e3, List.flatMap_cons, List.append_assoc]
    · cases c' with
      | nil =>
        simp only [List.nil_append] at h2
        obtain ⟨cs1, c0, cs2, p1, p2, e1, e2, e3, e4⟩ := ih [] b post h2.symm
        refine ⟨c :: cs1, c0, cs2, p1, p2, by rw [e1]; rfl, e2, ?_, e4⟩
        rw [List.flatMap_cons, List.append_assoc, ← e3]
        simpa using h1.symm
      | cons x c'' =>
        simp only [List.cons_append, List.cons.injEq] at h2
        obtain ⟨hx, hpost⟩ := h2
        subst hx
        exact ⟨[], c, cs, pre, c'', rfl, h1, by simp, hpost⟩

/-- A child of a directory is the directory followed by one name. -/
theorem child_eq (fs : FS) (d c : Path) (h : c ∈ childrenOf fs d) : ∃ name, c = d ++ [name] := by
  unfold childrenOf at h
  rw [List.mem_map] at h
  obtain ⟨e, he, hc⟩ := h
  rw [List.mem_filter] at he
  have hp := he.2
  simp only [ne_eq, decide_eq_true_eq] at hp
  subst hc
  obtain ⟨hne, hdl⟩ := hp
  refine ⟨e.1.getLast hne, ?_⟩
  have := List.dropLast_append_getLast hne
  rw [hdl] at this
  exact this.symm

/-- Every entry of the walk below a directory lies below it. -/
theorem walkTree_below (fs : FS) :
    ∀ (n : Nat) (d x : Path), x ∈ walkTree fs n d → ∃ r, r ≠ [] ∧ x = d ++ r := by
  intro n
  induction n with
  | zero => intro d x h; simp [walkTree] at h
  | succ n ih =>
    intro d x h
    rw [walkTree, List.mem_flatMap] at h
    obtain ⟨c, hc, hx⟩ := h
    obtain ⟨name, hname⟩ := child_eq fs d c hc
    rw [List.mem_cons] at hx
    rcases hx with hx | hx
    · exact ⟨[name], by simp, by rw [hx, hname]⟩
    · have hsub : x ∈ walkTree fs n c := by
        cases hnode : nodeAt fs c with
        | none => rw [hnode] at hx; simp at hx
        | some node =>
          rw [hnode] at hx
          cases node with
          | dir m => exact hx
          | file m content => simp at hx
          | symlink t => simp at hx
      obtain ⟨r, hr, hxr⟩ := ih c x hsub
      exact ⟨name :: r, by simp, by rw [hxr, hname]; simp⟩

/-- The walk is in pre-order: before an entry come all directories it lies
in, from the root of the walk down. -/
theorem walkTree_preorder (fs : FS) :
    ∀ (n : Nat) (d : Path) (pre : List Path) (b : Path) (post : List Path),
      walkTree fs n d = pre ++ b :: post →
      ∀ r1 r2 : List String, r1 ≠ [] → r2 ≠ [] → b = d ++ r1 ++ r2 → d ++ r1 ∈ pre := by
  intro n
  induction n with
  | zero => intro d pre b post h; simp [walkTree] at h
  | succ n ih =>
    intro d pre b post h r1 r2 hr1 hr2 hb
    rw [walkTree] at h
    obtain ⟨cs1, c, cs2, p1, p2, e1, e2, e3, -⟩ := flatMap_split _ _ _ _ _ h
    have hc : c ∈ childrenOf fs d := by rw [e1]; simp
    obtain ⟨name, hname⟩ := child_eq fs d c hc
    have hbin : b ∈ p1 ++ b :: p2 := by simp
    rw [← e2, List.mem_cons] at hbin
    -- the entry lies below the child
    have hbc : ∃ r, b = c ++ r := by
      rcases hbin with hbin | hbin
      · exact ⟨[], by simp [hbin]⟩
      · have hsub : b ∈ walkTree fs n c := by
          cases hnode : nodeAt fs c with
          | none => rw [hnode] at hbin; simp at hbin
          | some node =>
            rw [hnode] at hbin
            cases node with
            | dir m => exact hbin
            | file m content => simp at hbin
            | symlink t => simp at hbin
        obtain ⟨r, -, hr⟩ := walkTree_below fs n c b hsub
        exact ⟨r, hr⟩
    obtain ⟨r, hr⟩ := hbc
    -- so the first name of `r1` is the name of the child
    have hcut : name :: r = r1 ++ r2 := by
      have : d ++ (name :: r) = d ++ (r1 ++ r2) := by
        rw [← List.append_assoc, ← hb, hr, hname]
        simp
      exact List.append_cancel_left this
    obtain ⟨x, r1', hx⟩ : ∃ x r1', r1 = x :: r1' := by
      cases r1 with
      | nil => exact absurd rfl hr1
      | cons x r1' => exact ⟨x, r1', rfl⟩
    subst hx
    simp only [List.cons_append, List.cons.injEq] at hcut
    obtain ⟨hxn, hrr⟩ := hcut
    subst hxn
    have hbne : b ≠ c := by
      intro hbceq
      rw [hbceq] at hr
      have hlen := congrArg List.length hr
      rw [hrr] at hlen
      cases r2 with
      | nil => exact hr2 rfl
      | cons y r2' => simp at hlen
    -- the block of the child starts with the child
    cases p1 with
    | nil =>
      simp only [List.nil_append, List.cons.injEq] at e2
      exact absurd e2.1.symm hbne
    | cons y p1' =>
      simp only [List.cons_append, List.cons.injEq] at e2
      obtain ⟨hy, hsub⟩ := e2
      subst hy
      rw [e3]
      apply List.mem_append_right
      cases r1' with
      | nil =>
        rw [hname]
        simp
      | cons z r1'' =>
        have hwalk : walkTree fs n c = p1' ++ b :: p2 := by
          cases hnode : nodeAt fs c with
          | none => rw [hnode] at hsub; simp at hsub
          | some node =>
            rw [hnode] at hsub
            cases node with
            | dir m => exact hsub
            | file m content => simp at hsub
            | symlink t => simp at hsub
        have := ih c p1' b p2 hwalk (z :: r1'') r2 (by simp) hr2
          (by rw [hr, hrr, List.append_assoc])
        apply List.mem_cons_of_mem
        rw [hname] at this
        simpa using this

/-- The walk of `fs::recursive_directory_iterator` is in pre-order: before an
entry come all directories it lies in, below the root of the walk. -/
theorem recursive_directory_iterator_preorder (fs : FS) (root : Path)
    (entries pre post : List Path) (b : Path)
    (h : recursive_directory_iterator fs root = some entries)
    (hsplit : entries = pre ++ b :: post) (r1 r2 : List String) (hr1 : r1 ≠ []) (hr2 : r2 ≠ [])
    (hb : b = root ++ r1 ++ r2) : root ++ r1 ∈ pre := by
  unfold recursive_directory_iterator at h
  cases hs : stat fs root with
  | error e => rw [hs] at h; cases h
  | ok r =>
    obtain ⟨d, node⟩ := r
    rw [hs] at h
    cases node with
    | file m c => cases h
    | symlink t => cases h
    | dir m =>
      simp only at h
      injection h with h
      rw [hsplit] at h
      obtain ⟨l1, l2, hw, hpre, hl2⟩ := List.map_eq_append_iff.1 h
      cases l2 with
      | nil => simp at hl2
      | cons b1 l2' =>
        simp only [List.map_cons, List.cons.injEq] at hl2
        obtain ⟨hb1, -⟩ := hl2
        have hmem : b1 ∈ walkTree fs fs.length d := by rw [hw]; simp
        obtain ⟨rb, -, hrb⟩ := walkTree_below fs _ d b1 hmem
        have hcut : rb = r1 ++ r2 := by
          rw [hrb, hb] at hb1
          simp only [List.drop_left, List.append_assoc] at hb1
          exact List.append_cancel_left hb1
        have := walkTree_preorder fs fs.length d l1 b1 l2' hw r1 r2 hr1 hr2
          (by rw [hrb, hcut, List.append_assoc])
        rw [← hpre, List.mem_map]
        exact ⟨d ++ r1, this, by simp⟩

/-- An element that is not in the front part of a list is behind all of it. -/
theorem split_of_not_mem_left {α : Type} (xs ys pre post : List α) (b : α)
    (h : xs ++ ys = pre ++ b :: post) (hb : b ∉ xs) : ∃ p, pre = xs ++ p := by
  rw [List.append_eq_append_iff] at h
  rcases h with ⟨a, h1, -⟩ | ⟨c, h1, h2⟩
  · exact ⟨a, h1⟩
  · cases c with
    | nil => exact ⟨[], by simpa using h1.symm⟩
    | cons x c1 =>
      simp only [List.cons_append, List.cons.injEq] at h2
      rw [h1, ← h2.1] at hb
      simp at hb

/-- An element that is not in the back part of a list is in front of all of
it. -/
theorem split_of_not_mem_right {α : Type} (xs ys pre post : List α) (b : α)
    (h : xs ++ ys = pre ++ b :: post) (hb : b ∉ ys) : ∃ s, xs = pre ++ b :: s ∧ post = s ++ ys := by
  rw [List.append_eq_append_iff] at h
  rcases h with ⟨a, h1, h2⟩ | ⟨c, h1, h2⟩
  · rw [h2] at hb
    simp at hb
  · cases c with
    | nil =>
      simp only [List.nil_append] at h2
      rw [← h2] at hb
      simp at hb
    | cons x c1 =>
      simp only [List.cons_append, List.cons.injEq] at h2
      exact ⟨c1, by rw [h1, h2.1], h2.2⟩

/-- A position in a filtered list comes from a position in the list. -/
theorem filter_split {α : Type} (p : α → Bool) :
    ∀ (l x : List α) (b : α) (y : List α), l.filter p = x ++ b :: y →
      ∃ l1 l2, l = l1 ++ b :: l2 ∧ l1.filter p = x ∧ l2.filter p = y := by
  intro l
  induction l with
  | nil => intro x b y h; simp at h
  | cons a l ih =>
    intro x b y h
    rw [List.filter_cons] at h
    by_cases hp : p a = true
    · rw [if_pos hp] at h
      cases x with
      | nil =>
        simp only [List.nil_append, List.cons.injEq] at h
        exact ⟨[], l, by rw [h.1]; rfl, rfl, h.2⟩
      | cons x0 x1 =>
        simp only [List.cons_append, List.cons.injEq] at h
        obtain ⟨l1, l2, e1, e2, e3⟩ := ih x1 b y h.2
        refine ⟨a :: l1, l2, by rw [e1]; rfl, ?_, e3⟩
        rw [List.filter_cons, if_pos hp, e2, h.1]
    · rw [if_neg hp] at h
      obtain ⟨l1, l2, e1, e2, e3⟩ := ih x b y h
      refine ⟨a :: l1, l2, by rw [e1]; rfl, ?_, e3⟩
      rw [List.filter_cons, if_neg hp, e2]

/-- C16 (counterexample). The source `/a` holds the directory `d`, which holds
the directory `e`. The walk yields `d` before `e`; the list built from it holds
`e` before `d`: the directory `d` comes after its descendant. -/
theorem buildList_nested_directory_first :
    recursive_directory_iterator nestFS ["a"] = some [["a", "d"], ["a", "d", "e"]] ∧
    buildList nestFS [["a", "d"], ["a", "d", "e"]] = some [["a", "d", "e"], ["a", "d"]] := by
  decide

/-- C16 (amended). For the entries of a recursive walk, the list holds first
the entries that `fs::is_directory` takes for directories, in the reverse of
the order of the walk, and then the other entries, in the order of the walk; no
list is built when `fs::is_directory` throws on an entry. In the list a
directory `root/r1` comes before every entry below it that is not taken for a
directory, and after every entry below it that is: each occurrence of such a
directory `root/r1/r2` is followed by `root/r1`. -/
theorem buildList_eq (fs : FS) (root : Path) (entries : List Path)
    (hwalk : recursive_directory_iterator fs root = some entries) :
    buildList fs entries =
      (if ∀ e ∈ entries, is_directory fs e ≠ none then
        some ((entries.filter (fun e => is_directory fs e = some true)).reverse ++
          entries.filter (fun e => is_directory fs e = some false))
      else none) ∧
    ∀ (list : List Path), buildList fs entries = some list →
      ∀ (r1 r2 : List String), r1 ≠ [] → r2 ≠ [] →
        is_directory fs (root ++ r1) = some true →
        ∀ (pre post : List Path), list = pre ++ (root ++ r1 ++ r2) :: post →
          (is_directory fs (root ++ r1 ++ r2) = some false → root ++ r1 ∈ pre) ∧
          (is_directory fs (root ++ r1 ++ r2) = some true → root ++ r1 ∈ post) := by
  have heq : buildList fs entries =
      (if ∀ e ∈ entries, is_directory fs e ≠ none then
        some ((entries.filter (fun e => is_directory fs e = some true)).reverse ++
          entries.filter (fun e => is_directory fs e = some false))
      else none) := by
    rw [buildList, buildFrom_eq]
    simp
  refine ⟨heq, ?_⟩
  intro list hlist r1 r2 hr1 hr2 ha pre post hsplit
  rw [heq] at hlist
  split at hlist
  · injection hlist with hlist
    rw [hsplit] at hlist
    constructor
    · intro hb
      have hnot : root ++ r1 ++ r2 ∉
          (entries.filter (fun e => is_directory fs e = some true)).reverse := by
        rw [List.mem_reverse, List.mem_filter]
        rintro ⟨-, h⟩
        rw [hb] at h
        simp at h
      obtain ⟨p, hp⟩ := split_of_not_mem_left _ _ _ _ _ hlist hnot
      have hbin : root ++ r1 ++ r2 ∈ entries := by
        have : root ++ r1 ++ r2 ∈ pre ++ (root ++ r1 ++ r2) :: post := by simp
        rw [← hlist, List.mem_append, List.mem_reverse, List.mem_filter, List.mem_filter] at this
        rcases this with h | h <;> exact h.1
      obtain ⟨l1, l2, hl⟩ := List.append_of_mem hbin
      have hain := recursive_directory_iterator_preorder fs root entries l1 l2 _ hwalk hl
        r1 r2 hr1 hr2 rfl
      rw [hp]
      apply List.mem_append_left
      rw [List.mem_reverse, List.mem_filter]
      exact ⟨by rw [hl]; exact List.mem_append_left _ hain, by simp [ha]⟩
    · intro hb
      have hnot : root ++ r1 ++ r2 ∉ entries.filter (fun e => is_directory fs e = some false) := by
        rw [List.mem_filter]
        rintro ⟨-, h⟩
        rw [hb] at h
        simp at h
      obtain ⟨s, hs, hpost⟩ := split_of_not_mem_right _ _ _ _ _ hlist hnot
      have hrev : entries.filter (fun e => is_directory fs e = some true) =
          s.reverse ++ (root ++ r1 ++ r2) :: pre.reverse := by
        have := congrArg List.reverse hs
        simpa using this
      obtain ⟨l1, l2, hl, hf1, -⟩ := filter_split _ _ _ _ _ hrev
      have hain := recursive_directory_iterator_preorder fs root entries l1 l2 _ hwalk hl
        r1 r2 hr1 hr2 rfl
      rw [hpost]
      apply List.mem_append_left
      rw [← List.mem_reverse, ← hf1, List.mem_filter]
      exact ⟨hain, by simp [ha]⟩
  · cases hlist

/-- C16 (amended) at the source of the counterexample: the list holds `d/e`
before `d`. -/
theorem buildList_eq_witness :
    recursive_directory_iterator nestFS ["a"] = some [["a", "d"], ["a", "d", "e"]] ∧
    buildList nestFS [["a", "d"], ["a", "d", "e"]] = some [["a", "d", "e"], ["a", "d"]] ∧
    (["a"] : Path) ++ ["d"] ∈ [(["a", "d"] : Path)] :=
  ⟨by decide, by decide,
    (((buildList_eq nestFS ["a"] [["a", "d"], ["a", "d", "e"]] (by decide)).2
      [["a", "d", "e"], ["a", "d"]] (by decide) ["d"] ["e"] (by decide) (by decide) (by decide)
      [] [["a", "d"]] (by decide)).2 (by decide))⟩

end CyberBase
end nt
/-! ## C17: the second pass is a stable partition -/

namespace nt
namespace CyberBase

/-- The first loop of the second pass, in terms of the findings: the new file
system, the marked list and the positions of the findings. -/
theorem preserveFrom_eq (env : Env) (params : Nat) (base : Option Path) (l : List Outcome) :
    ∀ (fs : FS) (ind : Nat), preserveFrom env params base fs l ind =
      (findings env params base fs l).bind (fun r => .ok (r.1, marked r.2, failedAt ind r.2)) := by
  induction l with
  | nil => intro fs ind; rfl
  | cons o rest ih =>
    intro fs ind
    obtain ⟨src, tgt⟩ := o
    rw [preserveFrom, findings]
    cases hl : is_symlink fs src with
    | none => rfl
    | some link =>
      cases link with
      | false =>
        simp only [orCrash, Run.bind, Bool.not_false, if_true, Bool.false_eq_true, if_false]
        cases hs : setStat env params fs src tgt.toPath base with
        | ok r =>
          simp only [Run.bind]
          rw [ih]
          cases hf : findings env params base r.1 rest with
          | ok t =>
            by_cases hr : r.2 = "" <;> simp [Run.bind, hr, marked, failedAt]
          | exit code fs1 => rfl
          | crash => rfl
        | exit code fs1 => rfl
        | crash => rfl
      | true =>
        simp only [orCrash, Run.bind, Bool.not_true, Bool.false_eq_true, if_false, if_true]
        rw [ih]
        cases hf : findings env params base fs rest with
        | ok t => simp [Run.bind, marked, failedAt]
        | exit code fs1 => rfl
        | crash => rfl

/-- The head of what is left after `pos` entries is the entry at `pos`. -/
theorem getElem?_of_drop_eq_cons {α : Type} (l : List α) (pos : Nat) (x : α) (rest : List α)
    (h : l.drop pos = x :: rest) : l[pos]? = some x ∧ l.drop (pos + 1) = rest ∧ pos < l.length := by
  have hlt : pos < l.length := by
    by_contra hge
    rw [List.drop_of_length_le (Nat.le_of_not_lt hge)] at h
    cases h
  rw [List.drop_eq_getElem_cons hlt] at h
  injection h with h1 h2
  exact ⟨by rw [List.getElem?_eq_getElem hlt, h1], h2, hlt⟩

/-- The inner loop copies the entries between `pos` and the next failed
position. -/
theorem copyUpTo_eq (success : List Outcome) (pend : List Outcome) :
    ∀ (fuel pos : Nat) (success_new rest : List Outcome),
      success.drop pos = pend ++ rest → pend.length ≤ fuel →
      copyUpTo success (pos + pend.length) fuel pos success_new =
        (pos + pend.length, success_new ++ pend) := by
  induction pend with
  | nil =>
    intro fuel pos sn rest _ _
    cases fuel with
    | zero => simp [copyUpTo]
    | succ f => simp [copyUpTo]
  | cons x pend ih =>
    intro fuel pos sn rest hd hf
    cases fuel with
    | zero => simp at hf
    | succ f =>
      obtain ⟨hx, hrest, hlt⟩ := getElem?_of_drop_eq_cons success pos x (pend ++ rest) hd
      have h1 : pos < success.length ∧ pos < pos + (x :: pend).length :=
        ⟨hlt, by simp⟩
      rw [copyUpTo, if_pos h1, hx]
      have h2 : pos + (x :: pend).length = (pos + 1) + pend.length := by
        simp only [List.length_cons]; omega
      rw [h2]
      simp only
      rw [ih f (pos + 1) (sn ++ [x]) rest hrest (by simpa using hf)]
      simp

/-- The loop over the failed positions, from any point of the list on: the
entries with a finding go to the error list, the others, up to the position
reached, to the new success list. -/
theorem moveFailed_eq (success : List Outcome) (an : List (Outcome × Option String)) :
    ∀ (pend : List Outcome) (pos : Nat) (success_new errors : List Outcome),
      success.drop pos = pend ++ marked an →
      ∃ p s, moveFailed success (failedAt (pos + pend.length) an) pos success_new errors =
          some (p, s, errors ++ moved an) ∧
        s ++ success.drop p = success_new ++ pend ++ kept an := by
  induction an with
  | nil =>
    intro pend pos sn errs hd
    refine ⟨pos, sn, by simp [failedAt, moveFailed, moved], ?_⟩
    rw [hd]; simp [marked, kept]
  | cons a an ih =>
    intro pend pos sn errs hd
    obtain ⟨o, f⟩ := a
    cases f with
    | none =>
      have hd1 : success.drop pos = (pend ++ [o]) ++ marked an := by
        rw [hd]; simp [marked]
      obtain ⟨p, s, h1, h2⟩ := ih (pend ++ [o]) pos sn errs hd1
      refine ⟨p, s, ?_, ?_⟩
      · rw [failedAt, moved]
        rw [← h1]
        simp only [List.length_append, List.length_singleton, Nat.add_assoc]
      · rw [h2]; simp [kept]
    | some m =>
      have hlen : pend.length ≤ success.length := by
        have := congrArg List.length hd
        simp at this
        omega
      have hc := copyUpTo_eq success pend success.length pos sn ((o.1, .text m) :: marked an)
        (by rw [hd]; simp [marked]) hlen
      have hd2 : success.drop (pos + pend.length) = (o.1, .text m) :: marked an := by
        rw [← List.drop_drop, hd]
        simp [marked]
      obtain ⟨hx, hrest, _⟩ := getElem?_of_drop_eq_cons success (pos + pend.length) _ _ hd2
      obtain ⟨p, s, h1, h2⟩ := ih [] (pos + pend.length + 1) (sn ++ pend)
        (errs ++ [(o.1, .text m)]) (by simpa using hrest)
      refine ⟨p, s, ?_, ?_⟩
      · rw [failedAt, moveFailed]
        simp only [hc, hx]
        simp only [List.length_nil, Nat.add_zero] at h1
        rw [h1]
        simp [moved]
      · rw [h2]; simp [kept]

/-- The findings are about the entries of the list, in order. -/
theorem findings_fst (env : Env) (params : Nat) (base : Option Path) (l : List Outcome) :
    ∀ (fs fs1 : FS) (an : List (Outcome × Option String)),
      findings env params base fs l = .ok (fs1, an) → an.map Prod.fst = l := by
  induction l with
  | nil =>
    intro fs fs1 an h
    simp only [findings] at h
    injection h with h
    injection h with _ h2
    rw [← h2]; rfl
  | cons o rest ih =>
    intro fs fs1 an h
    rw [findings] at h
    cases hl : is_symlink fs o.1 with
    | none => rw [hl] at h; cases h
    | some link =>
      rw [hl] at h
      cases link with
      | false =>
        simp only [orCrash, Run.bind, Bool.false_eq_true, if_false] at h
        cases hs : setStat env params fs o.1 o.2.toPath base with
        | ok r =>
          rw [hs] at h
          simp only [Run.bind] at h
          cases hf : findings env params base r.1 rest with
          | ok t =>
            rw [hf] at h
            simp only at h
            injection h with h
            injection h with _ h2
            rw [← h2]
            simp [ih r.1 t.1 t.2 (by rw [hf])]
          | exit code fs2 => rw [hf] at h; cases h
          | crash => rw [hf] at h; cases h
        | exit code fs2 => rw [hs] at h; cases h
        | crash => rw [hs] at h; cases h
      | true =>
        simp only [orCrash, Run.bind, if_true] at h
        cases hf : findings env params base fs rest with
        | ok t =>
          rw [hf] at h
          simp only [Run.bind] at h
          injection h with h
          injection h with _ h2
          rw [← h2]
          simp [ih fs t.1 t.2 (by rw [hf])]
        | exit code fs2 => rw [hf] at h; cases h
        | crash => rw [hf] at h; cases h

/-- The entries without a finding and those with one are all the entries. -/
theorem kept_moved_length (an : List (Outcome × Option String)) :
    (kept an).length + (moved an).length = an.length := by
  induction an with
  | nil => rfl
  | cons a rest ih =>
    obtain ⟨o, f⟩ := a
    cases f <;> simp [kept, moved] <;> omega

/-- An instance with a failure: the second pass of the restore of the
scenario, under `ignore`, with a system that refuses `chown` on `/c/d`. The
entry of `d` leaves the success list and joins the error list with the
message; the entries of `f1` and `d/f2` stay, in their order. Without
`ignore` the run exits with `EPERM` and the destination is emptied. -/
theorem preserveMetadata_moves_failed_entry :
    preserveMetadata envRefused (REMOVE_INSIDE_ONLY ||| IGNORE_ERRORS) (some ["c"]) restoredSt =
      .ok ⟨scenarioRestored scenarioSummary,
        [(["b", "2024-01-01_00-00-00", "data", "f1"], .path ["c", "f1"]),
         (["b", "2024-01-02_00-00-00", "data", "d", "f2"], .path ["c", "d", "f2"])],
        [(["b", "2024-01-02_00-00-00", "data", "d"],
          .text ("Cannot access '/b/2024-01-02_00-00-00/data/d' or '/c/d'. " ++
            "Try to check permissions or launch my_backup as root.  "))]⟩ ∧
    preserveMetadata envRefused REMOVE_INSIDE_ONLY (some ["c"]) restoredSt =
      .exit EPERM (setNode (scenarioIncr scenarioSummary) ["c"] (.dir 300)) := by
  decide

/-- C17. The second pass in terms of the findings (for each entry of the
success list, in order: nothing when its source is a link or `setStat` returns
no text, else the text). Whenever the first loop ends without a fatal error,
the pass returns; the new success list holds exactly the entries without a
finding, in their order; the error list is the old one followed by the entries
with a finding, in their order, each once, with the text in the place of the
destination. The findings are about the entries of the old success list, one
for each, in order, and every entry is in exactly one of the two parts. -/
theorem preserveMetadata_stable_partition (env : Env) (params : Nat) (base : Option Path)
    (st : St) :
    preserveMetadata env params base st =
      (findings env params base st.fs st.success).bind (fun r =>
        .ok ⟨r.1, kept r.2, st.errors ++ moved r.2⟩) ∧
    ∀ (fs1 : FS) (an : List (Outcome × Option String)),
      findings env params base st.fs st.success = .ok (fs1, an) →
        an.map Prod.fst = st.success ∧
        (kept an).length + (moved an).length = st.success.length := by
  refine ⟨?_, fun fs1 an h => ?_⟩
  · rw [preserveMetadata, preserveFrom_eq]
    cases hf : findings env params base st.fs st.success with
    | ok r =>
      simp only [Run.bind]
      obtain ⟨p, s, h1, h2⟩ := moveFailed_eq (marked r.2) r.2 [] 0 [] st.errors (by simp)
      simp only [List.length_nil, Nat.add_zero] at h1
      rw [h1]
      simp only
      rw [h2]
      simp
    | exit code fs1 => rfl
    | crash => rfl
  · have hm := findings_fst env params base st.success st.fs fs1 an h
    refine ⟨hm, ?_⟩
    rw [kept_moved_length, ← hm, List.length_map]

/-- C17 at the second pass of the restore of the scenario, with a system that
refuses `chown` on `/c/d`. -/
theorem preserveMetadata_stable_partition_witness :
    preserveMetadata envRefused (REMOVE_INSIDE_ONLY ||| IGNORE_ERRORS) (some ["c"]) restoredSt =
      (findings envRefused (REMOVE_INSIDE_ONLY ||| IGNORE_ERRORS) (some ["c"]) restoredSt.fs
        restoredSt.success).bind (fun r =>
          .ok ⟨r.1, kept r.2, restoredSt.errors ++ moved r.2⟩) ∧
    ∀ (fs1 : FS) (an : List (Outcome × Option String)),
      findings envRefused (REMOVE_INSIDE_ONLY ||| IGNORE_ERRORS) (some ["c"]) restoredSt.fs
          restoredSt.success = .ok (fs1, an) →
        an.map Prod.fst = restoredSt.success ∧
        (kept an).length + (moved an).length = restoredSt.success.length :=
  preserveMetadata_stable_partition envRefused (REMOVE_INSIDE_ONLY ||| IGNORE_ERRORS)
    (some ["c"]) restoredSt

end CyberBase
end nt

/-! ## C18: a file rewritten inside an unchanged directory -/

namespace nt
namespace CyberBackup

open CyberBase

/-- C18 (failing input). The source `/a` holds `d/f`. After a full backup the
file `d/f` is rewritten in place, which leaves the time of `d` as it was. In
the incremental backup the directory `d` is unchanged against the reference and
nothing is created for it, so `/b/2024-01-02_00-00-00/data/d` is missing when
the changed file `d/f` is copied there: the copy fails with `ENOENT`, the run
exits with that code and the new backup directory is removed. -/
theorem incremental_copy_into_missing_directory :
    process env0 "full" ["a"] ["b"] REMOVE_BASE "2024-01-01_00-00-00" inPlaceS0 =
      .ok ⟨inPlaceFull,
        [(["a", "d"], .path ["b", "2024-01-01_00-00-00", "data", "d"]),
         (["a", "d", "f"], .path ["b", "2024-01-01_00-00-00", "data", "d", "f"])], []⟩ ∧
    inPlaceS1 = setNode inPlaceFull ["a", "d", "f"] (.file 160 "z") ∧
    prepareDestination env1 REMOVE_BASE ["b"] "2024-01-02_00-00-00" inPlaceS1 =
      .ok inPlacePrepared ∧
    buildList inPlacePrepared [["a", "d"], ["a", "d", "f"]] = some [["a", "d"], ["a", "d", "f"]] ∧
    modifiedDirectory inPlacePrepared ["a", "d"] ["b", "2024-01-01_00-00-00", "data", "d"] =
      some false ∧
    transferStep env1 REMOVE_BASE ["a"] ["b", "2024-01-02_00-00-00"]
        ["b", "2024-01-01_00-00-00"] ["b", "2024-01-02_00-00-00"] ⟨inPlacePrepared, [], []⟩
        ["a", "d"] = .ok ⟨inPlacePrepared, [], []⟩ ∧
    modifiedFile inPlacePrepared ["a", "d", "f"]
        ["b", "2024-01-01_00-00-00", "data", "d", "f"] = some true ∧
    fs_exists inPlacePrepared ["b", "2024-01-02_00-00-00", "data", "d"] = some false ∧
    transferStep env1 REMOVE_BASE ["a"] ["b", "2024-01-02_00-00-00"]
        ["b", "2024-01-01_00-00-00"] ["b", "2024-01-02_00-00-00"] ⟨inPlacePrepared, [], []⟩
        ["a", "d", "f"] = .exit ENOENT inPlaceFailed ∧
    process env1 "incremental" ["a"] ["b"] REMOVE_BASE "2024-01-02_00-00-00" inPlaceS1 =
      .exit ENOENT inPlaceFailed := by
  decide

end CyberBackup
end nt

/-! ## C19: an unchanged file inside a directory both backups hold -/

namespace nt
namespace CyberRestore

open CyberBase

/-- C19 (failing input). The source `/a` holds `d/f`. After a full backup the
file `d/g` is created and an incremental backup is taken, which holds `d` and
`d/g`. In the restore into the empty `/c` the first pass skips the directory
`d` of the full backup, because the incremental backup holds `d` as well, and
then copies `d/f` to `/c/d/f` while `/c/d` is missing: the copy fails with
`ENOENT` and the run exits with that code before the second pass. -/
theorem restore_copy_into_missing_directory :
    CyberBackup.process env0 "full" ["a"] ["b"] REMOVE_BASE "2024-01-01_00-00-00" inPlaceS0 =
      .ok ⟨inPlaceFull,
        [(["a", "d"], .path ["b", "2024-01-01_00-00-00", "data", "d"]),
         (["a", "d", "f"], .path ["b", "2024-01-01_00-00-00", "data", "d", "f"])], []⟩ ∧
    siblingS1 = addNode (envAt 150) inPlaceFull ["a", "d", "g"] (.file 150 "y") ∧
    CyberBackup.process env1 "incremental" ["a"] ["b"] REMOVE_BASE "2024-01-02_00-00-00"
        siblingS1 =
      .ok ⟨siblingIncr,
        [(["a", "d"], .path ["b", "2024-01-02_00-00-00", "data", "d"]),
         (["a", "d", "g"], .path ["b", "2024-01-02_00-00-00", "data", "d", "g"])], []⟩ ∧
    readSummary env2 REMOVE_INSIDE_ONLY ["b", "2024-01-02_00-00-00"] siblingIncr =
      .ok (["b", "2024-01-01_00-00-00"], []) ∧
    prepareDestination env2 REMOVE_INSIDE_ONLY ["c"] siblingIncr = .ok siblingIncr ∧
    mergeStep env2 REMOVE_INSIDE_ONLY ["c"] ["b", "2024-01-02_00-00-00"] ["c"]
        ["b", "2024-01-01_00-00-00"] [] ⟨siblingIncr, [], []⟩
        ["b", "2024-01-01_00-00-00", "data", "d"] = .ok ⟨siblingIncr, [], []⟩ ∧
    fs_exists siblingIncr ["c", "d"] = some false ∧
    mergeStep env2 REMOVE_INSIDE_ONLY ["c"] ["b", "2024-01-02_00-00-00"] ["c"]
        ["b", "2024-01-01_00-00-00"] [] ⟨siblingIncr, [], []⟩
        ["b", "2024-01-01_00-00-00", "data", "d", "f"] = .exit ENOENT siblingIncr ∧
    process env2 ["b", "2024-01-02_00-00-00"] ["c"] REMOVE_INSIDE_ONLY siblingIncr =
      .exit ENOENT siblingIncr := by
  decide

end CyberRestore
end nt
